import Mathlib

/-!
# Verification of the PeopleSwarm shopper-simulation core

Shallow embedding of the agent simulation engine of `src/behavior.py` and
`src/agent_group.py`: the customer state machine, the zone-selection policy,
the checkout-queue protocol, the movement step, group coordination and the
population factory.

Modelling conventions:
* Python floats are modelled as real numbers (`ℝ`); 2-D points (`QPointF`)
  as `ℝ × ℝ` with componentwise addition.
* Python object identity (used by `==` on `Agent` and `StoreZone` objects)
  is modelled by a numeric `id` field; the shared mutable `queue_length`
  attribute of checkout zones is modelled as a store `ℕ → ℤ` keyed by the
  zone id (zones are created with `queue_length = 0`).
* Calls of the global random generator are modelled as oracle inputs
  (an `Rng` record of the values drawn); theorems quantify over them.
* The social-force avoidance vector `Agent._avoid_collisions` is passed as
  an explicit function parameter `avoidFn`: no claim below depends on its
  value, and all theorems are proved for every choice of it.
* A raised Python exception is modelled as the `Option` value `none`.
-/

open scoped Classical

noncomputable section

/-- Squared euclidean distance between two points, as computed by
`dx*dx + dy*dy` in `Agent.distance_to`. -/
def dist2 (p q : ℝ × ℝ) : ℝ :=
  (q.1 - p.1) ^ 2 + (q.2 - p.2) ^ 2

/-- `Agent.distance_to`: euclidean distance `(dx*dx + dy*dy) ** 0.5`. -/
def distTo (p q : ℝ × ℝ) : ℝ :=
  Real.sqrt (dist2 p q)

/-- `CustomerState` enumeration of `behavior.py`. -/
inductive CustomerState where
  | WALKING
  | SHOPPING
  | IN_QUEUE
  | PAYING
  | LEAVING
  | FINISHED
deriving DecidableEq, Repr

/-- `BehaviorType` enumeration of `behavior.py`. -/
inductive BehaviorType where
  | IMPULSIVE
  | TARGETED
  | EXPLORER
  | FAMILY
  | BUDGET
deriving DecidableEq, Repr

/-- `BudgetLevel` enumeration of `behavior.py`. -/
inductive BudgetLevel where
  | LOW
  | MEDIUM
  | HIGH
deriving DecidableEq, Repr

/-- `AgentDimensions`: physical footprint in millimetres. -/
structure AgentDimensions where
  width : ℝ
  length : ℝ

/-- `AgentDimensions.get_dimensions`. -/
def getDimensions (behavior : BehaviorType) : AgentDimensions :=
  if behavior = BehaviorType.FAMILY then ⟨1200, 1500⟩
  else if behavior = BehaviorType.IMPULSIVE ∨ behavior = BehaviorType.TARGETED then ⟨450, 300⟩
  else ⟨900, 600⟩

/-- `StoreZone`: static attributes of a zone.  The source stores a `QRectF`
and exposes its centre through the `center` property; the embedding keeps
the centre directly.  `id` models Python object identity; the mutable
`queue_length` attribute lives in a separate store `ℕ → ℤ` keyed by `id`. -/
structure Zone where
  id : ℕ
  center : ℝ × ℝ
  attractiveness : ℝ
  maxQueueLength : ℤ
  queueSpacing : ℝ

/-- The store of `queue_length` counters, keyed by zone id. -/
def QStore : Type := ℕ → ℤ

/-- `StoreZone.can_join_queue`: `queue_length < max_queue_length`. -/
def canJoinQueue (qs : QStore) (z : Zone) : Prop :=
  qs z.id < z.maxQueueLength

instance (qs : QStore) (z : Zone) : Decidable (canJoinQueue qs z) := by
  unfold canJoinQueue; infer_instance

/-- `StoreZone.join_queue`: increments the counter and returns it if below
capacity, else returns `-1`.  Result: (returned value, updated store). -/
def joinQueue (qs : QStore) (z : Zone) : ℤ × QStore :=
  if canJoinQueue qs z then
    (qs z.id + 1, Function.update qs z.id (qs z.id + 1))
  else
    (-1, qs)

/-- `StoreZone.get_queue_position`: slot `pos` stands `spacing * pos` to the
left of the zone centre, `spacing = (queue_spacing + agent_length) / scale`. -/
def getQueuePos (z : Zone) (pos : ℤ) (dims : AgentDimensions) (scale : ℝ) : ℝ × ℝ :=
  (z.center.1 - (z.queueSpacing + dims.length) / scale * (pos : ℝ), z.center.2)

/-- The `Agent` record: all fields of `Agent.__init__` that the core logic
reads or writes.  `currentCashZone` holds the static part of the claimed
checkout zone (Python holds a reference; identity = `id`). -/
structure Agent where
  id : ℕ
  position : ℝ × ℝ
  dims : AgentDimensions
  scale : ℝ
  realSpeed : ℝ
  speed : ℝ
  heading : ℝ × ℝ
  desiredHeading : ℝ × ℝ
  behavior : BehaviorType
  budget : BudgetLevel
  allZones : List Zone
  unvisitedZones : List Zone
  cashZones : List Zone
  exitPoints : List (ℝ × ℝ)
  state : CustomerState
  destination : Option (ℝ × ℝ)
  shoppingTime : ℝ
  paymentTime : ℝ
  minShoppingTime : ℝ
  maxShoppingTime : ℝ
  serviceTime : ℝ
  currentCashZone : Option Zone
  queuePosition : Option ℤ
  rewardSensitivity : ℝ
  costSensitivity : ℝ
  imageryVividness : ℝ
  anticipatoryEmotionWeight : ℝ
  impulseProb : ℝ
  entryHeading : ℝ × ℝ
  firstMove : Bool
  visitedZones : List Zone

/-- `Agent.finished` property. -/
def Agent.finished (a : Agent) : Prop :=
  a.state = CustomerState.FINISHED

instance (a : Agent) : Decidable a.finished := by
  unfold Agent.finished; infer_instance

/-- Oracle record for the pseudo-random draws a single decision consumes:
`shoppingDraw` for the Bernoulli trial ending SHOPPING, `draws i` for the
per-zone jitter of `_weighted_choice`, `roulette` for `random.uniform(0,
total)`, `choiceIdx` for `random.choice`. -/
structure Rng where
  shoppingDraw : ℝ
  draws : ℕ → ℝ × ℝ
  roulette : ℝ
  choiceIdx : ℕ

/-- `Agent._utility`: S-O-R utility for BUDGET and IMPULSIVE. -/
def utility (a : Agent) (z : Zone) : ℝ :=
  a.rewardSensitivity * z.attractiveness
    + a.anticipatoryEmotionWeight * a.imageryVividness
    - a.costSensitivity / max z.attractiveness 0.1

/-- The per-behavior weight of `Agent._weighted_choice` before the final
`max (w, 0.0)` clamp; `d` are the two random draws of the iteration. -/
def rawWeight (a : Agent) (z : Zone) (d : ℝ × ℝ) : ℝ :=
  match a.behavior with
  | BehaviorType.EXPLORER => z.attractiveness
  | BehaviorType.TARGETED => 1 / (1 + distTo a.position z.center)
  | BehaviorType.BUDGET => max 0 (utility a z)
  | BehaviorType.IMPULSIVE => (if d.1 < a.impulseProb then utility a z else 1) + d.2
  | BehaviorType.FAMILY => 0.5 + d.1 * 0.5

/-- The roulette loop of `_weighted_choice`: subtract weights until the
running value drops to `0` or below; `none` when the loop falls through. -/
def rouletteRun : ℝ → List (Zone × ℝ) → Option Zone
  | _, [] => none
  | r, (z, w) :: rest => if r - w ≤ 0 then some z else rouletteRun (r - w) rest

/-- `Agent._weighted_choice`.  `random.choice` on a nonempty list is
modelled by the oracle index `choiceIdx` reduced mod the length; the
`zones[-1]` fall-through by `getLast?`. -/
def weightedChoice (a : Agent) (rng : Rng) (zones : List Zone) : Option Zone :=
  let weights := zones.mapIdx fun i z => max (rawWeight a z (rng.draws i)) 0
  let total := weights.sum
  if total ≤ 0 then
    zones.get? (rng.choiceIdx % zones.length)
  else
    match rouletteRun rng.roulette (zones.zip weights) with
    | some z => some z
    | none => zones.getLast?

/-- `Agent._zones_to_right`: zones whose centre lies right of the entry
heading (negative cross product). -/
def zonesToRight (a : Agent) (zones : List Zone) : List Zone :=
  zones.filter fun z =>
    decide (a.entryHeading.1 * (z.center.2 - a.position.2)
      - a.entryHeading.2 * (z.center.1 - a.position.1) < 0)

/-- Python's `min(xs, key=...)` (first element with minimal key), as used in
`_choose_next_target`; `none` models the `ValueError` on an empty iterable. -/
def pyMinBy (lt : α → α → Prop) [DecidableRel lt] : List α → Option α
  | [] => none
  | x :: xs => some (xs.foldl (fun best y => if lt y best then y else best) x)

/-- The lexicographic key `(queue_length, distance)` comparison used to pick
a checkout zone. -/
def cashLt (a : Agent) (qs : QStore) (z w : Zone) : Prop :=
  qs z.id < qs w.id ∨
    (qs z.id = qs w.id ∧ distTo a.position z.center < distTo a.position w.center)

instance (a : Agent) (qs : QStore) : DecidableRel (cashLt a qs) := by
  unfold cashLt; infer_instance

/-- Distance comparison used for the nearest exit. -/
def exitLt (a : Agent) (p q : ℝ × ℝ) : Prop :=
  distTo a.position p < distTo a.position q

instance (a : Agent) : DecidableRel (exitLt a) := by
  unfold exitLt; infer_instance

/-- The budget filter of `_choose_next_target`: LOW keeps zones with
attractiveness ≥ 1.3, MEDIUM ≥ 1.1 (each only when the result is
nonempty), HIGH keeps everything. -/
def budgetFilter (b : BudgetLevel) (zones : List Zone) : List Zone :=
  match b with
  | BudgetLevel.LOW =>
      let f := zones.filter fun z => decide (z.attractiveness ≥ 1.3)
      if f = [] then zones else f
  | BudgetLevel.MEDIUM =>
      let f := zones.filter fun z => decide (z.attractiveness ≥ 1.1)
      if f = [] then zones else f
  | BudgetLevel.HIGH => zones

/-- Erase the first zone with the given id (`list.remove` under the
object-identity equality of Python). -/
def eraseZone (zones : List Zone) (zid : ℕ) : List Zone :=
  zones.eraseP fun z => decide (z.id = zid)

/-- `Agent._choose_next_target`.  Returns the updated agent and queue-length
store, or `none` on a raised exception (empty `exit_points`). -/
def chooseNextTarget (rng : Rng) (a : Agent) (qs : QStore) : Option (Agent × QStore) :=
  if a.state = CustomerState.LEAVING then
    match pyMinBy (exitLt a) a.exitPoints with
    | none => none
    | some e => some ({a with destination := some e}, qs)
  else
    let joinPart :=
      if a.unvisitedZones = [] ∧ a.cashZones ≠ [] then
        let available := a.cashZones.filter fun z => decide (canJoinQueue qs z)
        match pyMinBy (cashLt a qs) available with
        | none => none
        | some cash =>
          let r := joinQueue qs cash
          some (cash, r.1, r.2)
      else none
    match joinPart with
    | some (cash, res, qs') =>
      let a1 := {a with currentCashZone := some cash, queuePosition := some res}
      if 0 < res then
        some ({a1 with
          destination := some (getQueuePos cash res a.dims a.scale),
          state := CustomerState.IN_QUEUE}, qs')
      else
        -- fall-through: no unvisited zones remain, so the method ends FINISHED
        some ({a1 with state := CustomerState.FINISHED, destination := none}, qs')
    | none =>
      if a.unvisitedZones ≠ [] then
        let zones0 := a.unvisitedZones
        let zones1 :=
          if a.firstMove then
            let rz := zonesToRight a zones0
            if rz ≠ [] then rz else zones0
          else zones0
        let zones2 := budgetFilter a.budget zones1
        match weightedChoice a rng zones2 with
        | none => none
        | some z =>
          some ({a with
            destination := some z.center,
            visitedZones := a.visitedZones ++ [z],
            unvisitedZones := eraseZone a.unvisitedZones z.id,
            state := CustomerState.WALKING,
            firstMove := false}, qs)
      else
        some ({a with state := CustomerState.FINISHED, destination := none}, qs)

/-- `Agent._update_heading`: normalise direction to target, blend in the
(normalised) avoidance vector, low-pass filter the heading with turn rate
0.2 and re-normalise.  Mutates only `heading` and `desiredHeading`. -/
def updateHeading (a : Agent) (target avoid : ℝ × ℝ) : Agent :=
  if a.destination.isSome then
    let dx := target.1 - a.position.1
    let dy := target.2 - a.position.2
    let len := Real.sqrt (dx * dx + dy * dy)
    let dh0 := if 0 < len then (dx / len, dy / len) else a.desiredHeading
    let dh1 :=
      if avoid.1 ≠ 0 ∨ avoid.2 ≠ 0 then
        let alen := Real.sqrt (avoid.1 * avoid.1 + avoid.2 * avoid.2)
        let s := (dh0.1 + avoid.1 / alen, dh0.2 + avoid.2 / alen)
        let slen := Real.sqrt (s.1 * s.1 + s.2 * s.2)
        if 0 < slen then (s.1 / slen, s.2 / slen) else s
      else dh0
    let h0 := (a.heading.1 + (dh1.1 - a.heading.1) * 0.2,
               a.heading.2 + (dh1.2 - a.heading.2) * 0.2)
    let hlen := Real.sqrt (h0.1 * h0.1 + h0.2 * h0.2)
    let h1 := if 0 < hlen then (h0.1 / hlen, h0.2 / hlen) else h0
    {a with desiredHeading := dh1, heading := h1}
  else a

/-- The distance under which the movement step snaps onto the destination:
`self.speed * delta_time` (line 469 of `behavior.py`). -/
def snapThreshold (a : Agent) (dt : ℝ) : ℝ :=
  a.speed * dt

/-- The distance actually travelled in one movement step:
`self.real_speed * self.scale * self.speed * delta_time` (line 495). -/
def tickTravel (a : Agent) (dt : ℝ) : ℝ :=
  a.realSpeed * a.scale * a.speed * dt

/-- Python truthiness of `self.queue_position` (`None` and `0` are falsy). -/
def qpTruthy (qp : Option ℤ) : Prop :=
  ∃ v, qp = some v ∧ v ≠ 0

instance (qp : Option ℤ) : Decidable (qpTruthy qp) := by
  cases qp with
  | none => exact isFalse (by simp [qpTruthy])
  | some v => exact decidable_of_iff (v ≠ 0) (by simp [qpTruthy])

/-- Identity (`==` on Python objects) of two optional zone references. -/
def sameCashZone : Option Zone → Option Zone → Prop
  | none, none => True
  | some z, some w => z.id = w.id
  | _, _ => False

instance (x y : Option Zone) : Decidable (sameCashZone x y) := by
  cases x <;> cases y <;> simp [sameCashZone] <;> infer_instance

/-- Sort key of the queue: `ag.queue_position` (always a set integer for
agents in `IN_QUEUE`; `getD 0` is never exercised on reachable inputs). -/
def qKey (a : Agent) : ℤ :=
  a.queuePosition.getD 0

/-- The stable ascending sort by claimed slot used on the queue list. -/
def queueLe (x y : Agent) : Prop :=
  qKey x ≤ qKey y

instance : DecidableRel queueLe := by
  unfold queueLe; infer_instance

instance : IsTotal Agent queueLe :=
  ⟨fun x y => le_total (qKey x) (qKey y)⟩

instance : IsTrans Agent queueLe :=
  ⟨fun _ _ _ h h' => le_trans h h'⟩

/-- The agents currently in queue for the same checkout zone, sorted by
claimed slot index (`behavior.py` lines 443-446). -/
def queueOf (others : List Agent) (cz : Option Zone) : List Agent :=
  List.insertionSort queueLe
    (others.filter fun b =>
      decide (sameCashZone b.currentCashZone cz) && decide (b.state = CustomerState.IN_QUEUE))

/-- `Agent.move_towards_target`.  `avoidFn` stands for
`Agent._avoid_collisions` (its value never affects the properties below);
`others` is the full agent list passed by the tick driver; `none` models a
raised exception. -/
def moveTowardsTarget (avoidFn : Agent → List Agent → ℝ × ℝ) (others : List Agent)
    (dt : ℝ) (rng : Rng) (a : Agent) (qs : QStore) : Option (Agent × QStore) :=
  if a.state = CustomerState.FINISHED then some (a, qs)
  else if a.state = CustomerState.SHOPPING then
    let st := a.shoppingTime + dt
    if a.minShoppingTime ≤ st ∧
        rng.shoppingDraw < dt / (a.maxShoppingTime - a.minShoppingTime) then
      chooseNextTarget rng {a with shoppingTime := 0} qs
    else some ({a with shoppingTime := st}, qs)
  else if a.state = CustomerState.PAYING then
    let pt := a.paymentTime + dt
    if a.serviceTime ≤ pt then
      match a.currentCashZone with
      | some z =>
        chooseNextTarget rng
          {a with paymentTime := 0, state := CustomerState.LEAVING,
                  currentCashZone := none}
          (Function.update qs z.id (qs z.id - 1))
      | none =>
        chooseNextTarget rng
          {a with paymentTime := 0, state := CustomerState.LEAVING} qs
    else some ({a with paymentTime := pt}, qs)
  else if a.state = CustomerState.IN_QUEUE then
    match a.currentCashZone with
    | none => some (a, qs)
    | some cz =>
      let queue := queueOf others (some cz)
      if queue.head?.map Agent.id = some a.id then
        some ({a with state := CustomerState.PAYING}, qs)
      else if qpTruthy a.queuePosition then
        let target := getQueuePos cz (a.queuePosition.getD 0) a.dims a.scale
        if a.speed * dt < distTo a.position target then
          let a1 := updateHeading a target (avoidFn a others)
          some ({a1 with position :=
            (a1.position.1 + a1.heading.1 * a.speed * dt,
             a1.position.2 + a1.heading.2 * a.speed * dt)}, qs)
        else some (a, qs)
      else some (a, qs)
  else
    match a.destination with
    | some d =>
      if distTo a.position d ≤ snapThreshold a dt then
        let a0 := {a with position := d}
        if a.state = CustomerState.WALKING then
          if a.cashZones = [] then
            if d ∈ a.exitPoints then
              some ({a0 with state := CustomerState.FINISHED}, qs)
            else chooseNextTarget rng a0 qs
          else some ({a0 with state := CustomerState.SHOPPING}, qs)
        else if a.state = CustomerState.LEAVING then
          if d ∈ a.exitPoints then
            some ({a0 with state := CustomerState.FINISHED}, qs)
          else some (a0, qs)
        else chooseNextTarget rng a0 qs
      else
        let a1 := updateHeading a d (avoidFn a others)
        let step := tickTravel a dt
        some ({a1 with position :=
          (a1.position.1 + a1.heading.1 * step,
           a1.position.2 + a1.heading.2 * step)}, qs)
    | none => some (a, qs)

/-- Construction parameters of `Agent.__init__`: the caller-supplied
arguments plus the values drawn from the random generator at creation. -/
structure AgentParams where
  id : ℕ
  startPos : ℝ × ℝ
  storeZones : List Zone
  cashZones : List Zone
  exitPoints : List (ℝ × ℝ)
  behavior : BehaviorType
  budget : BudgetLevel
  scale : ℝ
  speed : ℝ
  serviceTime : ℝ
  rewardSensitivity : ℝ
  costSensitivity : ℝ
  imageryVividness : ℝ
  anticipatoryEmotionWeight : ℝ
  impulseProb : ℝ

/-- The agent record as `Agent.__init__` sets it up, before the initial
`_choose_next_target()` call at the end of the constructor. -/
def mkAgent (p : AgentParams) : Agent where
  id := p.id
  position := p.startPos
  dims := getDimensions p.behavior
  scale := p.scale
  realSpeed := 1000
  speed := if p.behavior = BehaviorType.FAMILY then p.speed * 0.7 else p.speed
  heading := (1, 0)
  desiredHeading := (1, 0)
  behavior := p.behavior
  budget := p.budget
  allZones := p.storeZones
  unvisitedZones := p.storeZones
  cashZones := p.cashZones
  exitPoints := p.exitPoints
  state := CustomerState.WALKING
  destination := none
  shoppingTime := 0
  paymentTime := 0
  minShoppingTime := 5
  maxShoppingTime := 30
  serviceTime := p.serviceTime
  currentCashZone := none
  queuePosition := none
  rewardSensitivity := p.rewardSensitivity
  costSensitivity := p.costSensitivity
  imageryVividness := p.imageryVividness
  anticipatoryEmotionWeight := p.anticipatoryEmotionWeight
  impulseProb := p.impulseProb
  entryHeading := (1, 0)
  firstMove := true
  visitedZones := []

/-- `Agent.__init__`: build the record and run the initial target choice. -/
def spawnAgent (rng : Rng) (p : AgentParams) (qs : QStore) : Option (Agent × QStore) :=
  chooseNextTarget rng (mkAgent p) qs

/-- Group types of `agent_group.py` (`AgentType`). -/
inductive GroupType where
  | INDIVIDUAL
  | PAIR
  | FAMILY
deriving DecidableEq, Repr

/-- `AgentType.SIZES`. -/
def groupSize : GroupType → ℕ
  | GroupType.INDIVIDUAL => 1
  | GroupType.PAIR => 2
  | GroupType.FAMILY => 3

/-- Behavior assignment of `AgentGroup.__init__`: singles draw uniformly
from the four non-FAMILY strategies (`random.choice` modelled by an oracle
index mod 4), multi-member groups are forced to FAMILY. -/
def groupBehavior (t : GroupType) (idx : ℕ) : BehaviorType :=
  if t = GroupType.INDIVIDUAL then
    [BehaviorType.IMPULSIVE, BehaviorType.TARGETED,
     BehaviorType.EXPLORER, BehaviorType.BUDGET].getD (idx % 4) BehaviorType.IMPULSIVE
  else BehaviorType.FAMILY

/-- Budget assignment: `random.choice(list(BudgetLevel))`. -/
def groupBudget (idx : ℕ) : BudgetLevel :=
  [BudgetLevel.LOW, BudgetLevel.MEDIUM, BudgetLevel.HIGH].getD (idx % 3) BudgetLevel.LOW

/-- `AgentGroup`: group type, member agents (index 0 = leader) and the
group-level `speed` attribute used by `AgentGroup.update`. -/
structure AgentGroupM where
  groupType : GroupType
  members : List Agent
  speed : ℝ

/-- Per-group random oracle: behavior/budget/entrance choices plus the
per-member construction draws. -/
structure GroupOracle where
  behaviorIdx : ℕ
  budgetIdx : ℕ
  entryIdx : ℕ
  memberRng : ℕ → Rng
  memberExtra : ℕ → AgentParams

/-- Create the member agents of a group, one per role, threading the shared
queue-length store through the constructors. -/
def buildMembers (rngs : ℕ → Rng) (pars : ℕ → AgentParams) :
    List ℕ → QStore → Option (List Agent × QStore)
  | [], qs => some ([], qs)
  | r :: rs, qs =>
    match spawnAgent (rngs r) (pars r) qs with
    | none => none
    | some (a, qs') =>
      match buildMembers rngs pars rs qs' with
      | none => none
      | some (l, qs'') => some (a :: l, qs'')

/-- `AgentGroup.__init__`: pick the group behavior and budget, then create
`SIZES[group_type]` member agents sharing them. -/
def mkGroup (gt : GroupType) (startPos : ℝ × ℝ) (storeZones cashZones : List Zone)
    (exitPoints : List (ℝ × ℝ)) (scale gspeed : ℝ) (o : GroupOracle) (qs : QStore) :
    Option (AgentGroupM × QStore) :=
  let beh := groupBehavior gt o.behaviorIdx
  let bud := groupBudget o.budgetIdx
  let pars := fun role =>
    { o.memberExtra role with
        startPos := startPos, storeZones := storeZones, cashZones := cashZones,
        exitPoints := exitPoints, behavior := beh, budget := bud,
        scale := scale, speed := gspeed }
  match buildMembers o.memberRng pars (List.range (groupSize gt)) qs with
  | none => none
  | some (l, qs') => some (⟨gt, l, gspeed⟩, qs')

/-- One follower position update of `AgentGroup.update`: step the lesser of
the group speed and the remaining distance toward the predecessor, or snap
onto a coincident predecessor. -/
def followerStep (gspeed : ℝ) (prev cur : ℝ × ℝ) : ℝ × ℝ :=
  let dist := distTo cur prev
  if 0 < dist then
    let step := min gspeed dist
    (cur.1 + (prev.1 - cur.1) / dist * step, cur.2 + (prev.2 - cur.2) / dist * step)
  else prev

/-- The follower chain: each member steps toward the already-updated
position of its immediate predecessor. -/
def updateFollowers (gspeed : ℝ) (prevPos : ℝ × ℝ) : List Agent → List Agent
  | [] => []
  | cur :: rest =>
    let newPos := followerStep gspeed prevPos cur.position
    {cur with position := newPos} :: updateFollowers gspeed newPos rest

/-- `AgentGroup.update`: the leader runs the full movement pipeline with the
default `delta_time = 0.033`, then the followers chain behind it. -/
def groupUpdate (avoidFn : Agent → List Agent → ℝ × ℝ) (rng : Rng)
    (g : AgentGroupM) (qs : QStore) : Option (AgentGroupM × QStore) :=
  match g.members with
  | [] => some (g, qs)
  | leader :: rest =>
    match moveTowardsTarget avoidFn g.members 0.033 rng leader qs with
    | none => none
    | some (leader', qs') =>
      some ({g with members := leader' :: updateFollowers g.speed leader'.position rest}, qs')

/-- Create `n` groups of one type (`generate_agent_groups` inner loop),
threading the oracle counter and queue store; `random.choice(entrances)`
is the oracle entry index mod the length (`none` on an empty list). -/
def mkGroupsN (gt : GroupType) (entrances : List (ℝ × ℝ)) (storeZones cashZones : List Zone)
    (exitPoints : List (ℝ × ℝ)) (scale gspeed : ℝ) (oracle : ℕ → GroupOracle) :
    ℕ → ℕ → QStore → Option (List AgentGroupM × ℕ × QStore)
  | 0, k, qs => some ([], k, qs)
  | Nat.succ n, k, qs =>
    match entrances.get? ((oracle k).entryIdx % entrances.length) with
    | none => none
    | some start =>
      match mkGroup gt start storeZones cashZones exitPoints scale gspeed (oracle k) qs with
      | none => none
      | some (g, qs') =>
        match mkGroupsN gt entrances storeZones cashZones exitPoints scale gspeed oracle n (k + 1) qs' with
        | none => none
        | some (gs, k', qs'') => some (g :: gs, k', qs'')

/-- `generate_agent_groups` main loop over the distribution: per type create
`int(total * pct // size)` groups. -/
def genLoop (total : ℕ) (entrances : List (ℝ × ℝ)) (storeZones cashZones : List Zone)
    (exitPoints : List (ℝ × ℝ)) (scale gspeed : ℝ) (oracle : ℕ → GroupOracle) :
    List (GroupType × ℚ) → ℕ → QStore → Option (List AgentGroupM × ℕ × QStore)
  | [], k, qs => some ([], k, qs)
  | (t, pct) :: rest, k, qs =>
    let count := (Int.floor ((total : ℚ) * pct / (groupSize t : ℚ))).toNat
    match mkGroupsN t entrances storeZones cashZones exitPoints scale gspeed oracle count k qs with
    | none => none
    | some (gs, k', qs') =>
      match genLoop total entrances storeZones cashZones exitPoints scale gspeed oracle rest k' qs' with
      | none => none
      | some (gs', k'', qs'') => some (gs ++ gs', k'', qs'')

/-- `generate_agent_groups`: per-type groups, then the shortfall
`total - used` padded with INDIVIDUAL groups (a negative shortfall pads
nothing, like `range` on a negative count). -/
def generateAgentGroups (total : ℕ) (distribution : List (GroupType × ℚ))
    (entrances : List (ℝ × ℝ)) (storeZones cashZones : List Zone)
    (exitPoints : List (ℝ × ℝ)) (scale gspeed : ℝ) (oracle : ℕ → GroupOracle)
    (qs : QStore) : Option (List AgentGroupM × QStore) :=
  match genLoop total entrances storeZones cashZones exitPoints scale gspeed oracle
      distribution 0 qs with
  | none => none
  | some (gs, k, qs') =>
    let used := (gs.map fun g => groupSize g.groupType).sum
    match mkGroupsN GroupType.INDIVIDUAL entrances storeZones cashZones exitPoints
        scale gspeed oracle (total - used) k qs' with
    | none => none
    | some (pads, _, qs'') => some (gs ++ pads, qs'')

/-- A global simulation state: the active agent list (in creation order, the
tick iteration order of `update_loop`) and the queue-length store. -/
structure Sim where
  agents : List Agent
  qs : QStore

/-- One tick over a list of agent indices, as `update_loop` does: skip
finished agents, update the rest in place so that later agents see the
already-updated earlier ones. -/
def tickIdx (avoidFn : Agent → List Agent → ℝ × ℝ) (dt : ℝ) (rngs : ℕ → Rng) :
    List ℕ → Sim → Option Sim
  | [], st => some st
  | i :: rest, st =>
    match st.agents.get? i with
    | none => tickIdx avoidFn dt rngs rest st
    | some a =>
      if a.state = CustomerState.FINISHED then tickIdx avoidFn dt rngs rest st
      else
        match moveTowardsTarget avoidFn st.agents dt (rngs i) a st.qs with
        | none => none
        | some (a', qs') => tickIdx avoidFn dt rngs rest ⟨st.agents.set i a', qs'⟩

/-- One full tick over the whole population. -/
def tickAll (avoidFn : Agent → List Agent → ℝ × ℝ) (dt : ℝ) (rngs : ℕ → Rng)
    (st : Sim) : Option Sim :=
  tickIdx avoidFn dt rngs (List.range st.agents.length) st

/-- The atomic state changes of the simulation, against a fixed layout `Z`
of checkout zones: one agent's movement update, an agent spawn (with cash
zones drawn from the layout and distinct product zones, as the editor
produces them), and a follower reposition (`AgentGroup.update` moves
followers without running their decision logic). -/
inductive SimStep (Z : List Zone) : Sim → Sim → Prop where
  | tick (st : Sim) (i : ℕ) (avoidFn : Agent → List Agent → ℝ × ℝ) (dt : ℝ) (rng : Rng)
      (a a' : Agent) (qs' : QStore)
      (hget : st.agents.get? i = some a)
      (hmv : moveTowardsTarget avoidFn st.agents dt rng a st.qs = some (a', qs')) :
      SimStep Z st ⟨st.agents.set i a', qs'⟩
  | spawn (st : Sim) (rng : Rng) (p : AgentParams) (a : Agent) (qs' : QStore)
      (hcash : ∀ z ∈ p.cashZones, z ∈ Z)
      (hnodup : (p.storeZones.map Zone.id).Nodup)
      (hsp : spawnAgent rng p st.qs = some (a, qs')) :
      SimStep Z st ⟨st.agents ++ [a], qs'⟩
  | reposition (st : Sim) (i : ℕ) (a : Agent) (pos : ℝ × ℝ)
      (hget : st.agents.get? i = some a) :
      SimStep Z st ⟨st.agents.set i {a with position := pos}, st.qs⟩

/-- The empty simulation: no agents yet, all zone queue counters zero
(`StoreZone.__init__` sets `queue_length = 0`). -/
def initSim : Sim :=
  ⟨[], fun _ => 0⟩

/-- Reachable simulation states. -/
inductive SimReachable (Z : List Zone) : Sim → Prop where
  | init : SimReachable Z initSim
  | step {st st' : Sim} : SimReachable Z st → SimStep Z st st' → SimReachable Z st'

/-- A zero avoidance vector: the social-force term when no other agent is
near.  The counterexamples below never reach a branch that reads it. -/
def avoid0 : Agent → List Agent → ℝ × ℝ :=
  fun _ _ => (0, 0)

/-- A concrete random oracle: every drawn value is `0` (a possible draw of
each of the generators involved). -/
def rng0 : Rng :=
  ⟨0, fun _ => (0, 0), 0, 0⟩

/-- A checkout zone with the source's default capacity `5` and spacing
`900`. -/
def zCash : Zone :=
  ⟨0, (10, 0), 1, 5, 900⟩

/-- A template agent used by the concrete scenarios; individual fields are
overridden per scenario. -/
def baseAgent : Agent where
  id := 0
  position := (0, 0)
  dims := ⟨450, 300⟩
  scale := 1
  realSpeed := 1000
  speed := 1
  heading := (1, 0)
  desiredHeading := (1, 0)
  behavior := BehaviorType.TARGETED
  budget := BudgetLevel.HIGH
  allZones := []
  unvisitedZones := []
  cashZones := []
  exitPoints := []
  state := CustomerState.WALKING
  destination := none
  shoppingTime := 0
  paymentTime := 0
  minShoppingTime := 5
  maxShoppingTime := 30
  serviceTime := 30
  currentCashZone := none
  queuePosition := none
  rewardSensitivity := 0.5
  costSensitivity := 0.5
  imageryVividness := 0.5
  anticipatoryEmotionWeight := 0.5
  impulseProb := 0
  entryHeading := (1, 0)
  firstMove := false
  visitedZones := []

/-- C1 scenario: an agent with all zones visited facing a single saturated
checkout (queue counter at capacity). -/
def satAgent : Agent :=
  {baseAgent with cashZones := [zCash], exitPoints := [(50, 0)],
                  destination := some (5, 5)}

/-- Queue store with the checkout counter at its capacity `5`. -/
def qsSat : QStore :=
  fun _ => 5

/-- C2/C3 scenario: two agents queued at the same checkout with slots 1 and
2, in creation (= tick iteration) order. -/
def queuedA : Agent :=
  {baseAgent with id := 1, state := CustomerState.IN_QUEUE,
                  currentCashZone := some zCash, queuePosition := some 1,
                  destination := some (getQueuePos zCash 1 baseAgent.dims 1)}

/-- Second queued agent, slot 2. -/
def queuedB : Agent :=
  {baseAgent with id := 2, state := CustomerState.IN_QUEUE,
                  currentCashZone := some zCash, queuePosition := some 2,
                  destination := some (getQueuePos zCash 2 baseAgent.dims 1)}

/-- Queue store recording the two claimed slots of `queuedA`, `queuedB`. -/
def qsTwo : QStore :=
  fun _ => 2

/-- The two-agent simulation state before the tick of the C2 scenario. -/
def simTwoQueued : Sim :=
  ⟨[queuedA, queuedB], qsTwo⟩

/-- C4 scenario: construction parameters with `scale = 1`, `speed = 1`. -/
def walkParams : AgentParams where
  id := 0
  startPos := (0, 0)
  storeZones := []
  cashZones := []
  exitPoints := []
  behavior := BehaviorType.TARGETED
  budget := BudgetLevel.HIGH
  scale := 1
  speed := 1
  serviceTime := 30
  rewardSensitivity := 0.5
  costSensitivity := 0.5
  imageryVividness := 0.5
  anticipatoryEmotionWeight := 0.5
  impulseProb := 0

/-- C4 scenario: a walking agent 500 units from its destination, with the
source's base speed 1000, scale 1, speed multiplier 1. -/
def walker : Agent :=
  {mkAgent walkParams with state := CustomerState.WALKING,
                           destination := some (500, 0),
                           cashZones := [zCash]}

/-- C4 witness scenario: a walking agent already standing on its
destination. -/
def walker0 : Agent :=
  {mkAgent walkParams with state := CustomerState.WALKING,
                           destination := some (0, 0),
                           cashZones := [zCash]}

/-- C6 scenario: a low-attractiveness zone to the right of the entry
heading... -/
def zRight : Zone :=
  ⟨1, (5, -5), 0.8, 5, 900⟩

/-- ...the promoted zone (attractiveness 1.5) to the left... -/
def zPromo : Zone :=
  ⟨2, (5, 5), 1.5, 5, 900⟩

/-- ...and a mid zone (attractiveness 1.1) also to the left. -/
def zMid : Zone :=
  ⟨3, (6, 5), 1.1, 5, 900⟩

/-- C6 scenario: a LOW-budget agent on its very first selection, with the
three-zone attractiveness set {0.8, 1.5, 1.1} of the spec scenario. -/
def lowAgent : Agent :=
  {baseAgent with budget := BudgetLevel.LOW, behavior := BehaviorType.EXPLORER,
                  firstMove := true,
                  allZones := [zRight, zPromo, zMid],
                  unvisitedZones := [zRight, zPromo, zMid]}

/-- The same LOW-budget agent after its first selection (bias consumed). -/
def lowAgent2 : Agent :=
  {lowAgent with firstMove := false}

/-- An all-zeros queue store. -/
def qs0 : QStore :=
  fun _ => 0

/-- C8 scenario: the leader of a FAMILY group at (3,4). -/
def famLeader : Agent :=
  mkAgent {walkParams with startPos := (3, 4), behavior := BehaviorType.FAMILY, id := 1}

/-- C8 scenario: a follower of the same group at the origin, distance 5
from the leader.  Its own `speed` attribute is `0.7` (the FAMILY slowdown
of `Agent.__init__`), while the group object's `speed` is `1`. -/
def famFollower : Agent :=
  mkAgent {walkParams with startPos := (0, 0), behavior := BehaviorType.FAMILY, id := 2}

/-- C8 scenario: the two-member FAMILY group with group speed 1. -/
def famGroup : AgentGroupM :=
  ⟨GroupType.FAMILY, [famLeader, famFollower], 1⟩

/-- A constant group oracle for concrete generation runs: all indices 0,
the all-zeros agent rng and the walking parameter template. -/
def oracleW : ℕ → GroupOracle :=
  fun _ => ⟨0, 0, 0, fun _ => rng0, fun _ => walkParams⟩

/-- C10 scenario: spawn parameters of shopper `n` — no product zones, the
single checkout `zCash` and one exit. -/
def pQ (n : ℕ) : AgentParams :=
  {walkParams with id := n, cashZones := [zCash], exitPoints := [(50, 0)]}

/-- The first C10 shopper right after spawning: it joined the empty queue
and claimed slot 1. -/
def aQ1 : Agent :=
  {mkAgent (pQ 1) with
    state := CustomerState.IN_QUEUE
    currentCashZone := some zCash
    queuePosition := some 1
    destination := some (getQueuePos zCash 1 (getDimensions BehaviorType.TARGETED) 1)}

/-- Queue store after the first C10 join (counter 1). -/
def qsA : QStore :=
  Function.update initSim.qs zCash.id (initSim.qs zCash.id + 1)

/-- The second C10 shopper right after spawning: slot 2 behind `aQ1`. -/
def aQ2 : Agent :=
  {mkAgent (pQ 2) with
    state := CustomerState.IN_QUEUE
    currentCashZone := some zCash
    queuePosition := some 2
    destination := some (getQueuePos zCash 2 (getDimensions BehaviorType.TARGETED) 1)}

/-- Queue store after the second C10 join (counter 2). -/
def qsB : QStore :=
  Function.update qsA zCash.id (qsA zCash.id + 1)

/-- The first shopper once the head check promotes it to PAYING. -/
def aQ1p : Agent :=
  {aQ1 with state := CustomerState.PAYING}

/-- The first shopper after its payment completes: LEAVING toward the exit,
the zone reference dropped (but `queuePosition` never reset). -/
def aQ1L : Agent :=
  {aQ1p with
    paymentTime := 0
    state := CustomerState.LEAVING
    currentCashZone := none
    destination := some ((50 : ℝ), 0)}

/-- Queue store after the payment completes (counter decremented to 1). -/
def qsC : QStore :=
  Function.update qsB zCash.id (qsB zCash.id - 1)

/-- The third C10 shopper: joining after the decrement, it receives slot
`1 + 1 = 2` — the slot `aQ2` still occupies. -/
def aQ3 : Agent :=
  {mkAgent (pQ 3) with
    state := CustomerState.IN_QUEUE
    currentCashZone := some zCash
    queuePosition := some 2
    destination := some (getQueuePos zCash 2 (getDimensions BehaviorType.TARGETED) 1)}

/-- Queue store after the third join (counter back at 2). -/
def qsD : QStore :=
  Function.update qsC zCash.id (qsC zCash.id + 1)

/-- The agent currently holds a claimed slot of zone `z` (object identity
via ids). -/
def holdsZone (z : Zone) (a : Agent) : Prop :=
  ∃ w, a.currentCashZone = some w ∧ w.id = z.id

instance (z : Zone) (a : Agent) : Decidable (holdsZone z a) := by
  unfold holdsZone
  cases a.currentCashZone with
  | none => exact isFalse (by simp)
  | some w => exact decidable_of_iff (w.id = z.id) (by simp)

/-- The inductive invariant of the checkout-queue protocol: each queue
counter equals the number of agents holding a slot of that zone, slot
holders are IN_QUEUE or PAYING at a layout zone, agents only consider
layout checkout zones, and counters stay within capacity. -/
def SimInv (Z : List Zone) (st : Sim) : Prop :=
  (∀ z ∈ Z, st.qs z.id = ((st.agents.filter fun ag => decide (holdsZone z ag)).length : ℤ))
  ∧ (∀ ag ∈ st.agents, ∀ w, ag.currentCashZone = some w →
      w ∈ Z ∧ (ag.state = CustomerState.IN_QUEUE ∨ ag.state = CustomerState.PAYING))
  ∧ (∀ ag ∈ st.agents, ∀ w ∈ ag.cashZones, w ∈ Z)
  ∧ (∀ z ∈ Z, st.qs z.id ≤ z.maxQueueLength)

/-- C1, claim as stated is false: with no unvisited zones left and a single
checkout at capacity, `_choose_next_target` does not retain the current
state and destination — it falls through to FINISHED and clears the
destination. -/
theorem chooseNextTarget_saturated_finishes_cex :
    chooseNextTarget rng0 satAgent qsSat =
      some ({satAgent with state := CustomerState.FINISHED, destination := none}, qsSat)
    ∧ satAgent.state = CustomerState.WALKING
    ∧ satAgent.destination = some (5, 5)
    ∧ satAgent.unvisitedZones = []
    ∧ satAgent.cashZones ≠ []
    ∧ (∀ z ∈ satAgent.cashZones, ¬ canJoinQueue qsSat z) := by
  refine ⟨?_, rfl, rfl, rfl, by simp [satAgent, baseAgent], ?_⟩
  · simp [chooseNextTarget, satAgent, baseAgent, zCash, qsSat, canJoinQueue, pyMinBy]
  · intro z hz
    simp only [satAgent, baseAgent, List.mem_singleton] at hz
    subst hz
    simp [canJoinQueue, qsSat, zCash]

/-- C1 amended: when no unvisited zones remain, checkout zones exist but
every one is at capacity, `_choose_next_target` sets the agent FINISHED and
clears the destination (it does not retain state and retry). -/
theorem chooseNextTarget_saturated_finished (rng : Rng) (a : Agent) (qs : QStore)
    (hs : a.state ≠ CustomerState.LEAVING)
    (hu : a.unvisitedZones = [])
    (hc : a.cashZones ≠ [])
    (hfull : ∀ z ∈ a.cashZones, ¬ canJoinQueue qs z) :
    chooseNextTarget rng a qs =
      some ({a with state := CustomerState.FINISHED, destination := none}, qs) := by
  have hav : a.cashZones.filter (fun z => decide (canJoinQueue qs z)) = [] := by
    rw [List.filter_eq_nil_iff]
    intro z hz
    simpa using hfull z hz
  unfold chooseNextTarget
  rw [if_neg hs]
  simp [hu, hc, hav, pyMinBy]

/-- Witness for the amended C1 theorem at the concrete saturated scenario. -/
theorem chooseNextTarget_saturated_finished_witness :
    satAgent.state ≠ CustomerState.LEAVING ∧
    chooseNextTarget rng0 satAgent qsSat =
      some ({satAgent with state := CustomerState.FINISHED, destination := none}, qsSat) :=
  ⟨by simp [satAgent, baseAgent],
   chooseNextTarget_saturated_finished rng0 satAgent qsSat
    (by simp [satAgent, baseAgent]) rfl (by simp [satAgent, baseAgent])
    (by
      intro z hz
      simp only [satAgent, baseAgent, List.mem_singleton] at hz
      subst hz
      simp [canJoinQueue, qsSat, zCash])⟩

/-- `_update_heading` only mutates the heading fields. -/
theorem updateHeading_fields (a : Agent) (t v : ℝ × ℝ) :
    (updateHeading a t v).position = a.position ∧
    (updateHeading a t v).state = a.state ∧
    (updateHeading a t v).shoppingTime = a.shoppingTime ∧
    (updateHeading a t v).paymentTime = a.paymentTime ∧
    (updateHeading a t v).currentCashZone = a.currentCashZone ∧
    (updateHeading a t v).cashZones = a.cashZones ∧
    (updateHeading a t v).allZones = a.allZones ∧
    (updateHeading a t v).unvisitedZones = a.unvisitedZones ∧
    (updateHeading a t v).visitedZones = a.visitedZones ∧
    (updateHeading a t v).queuePosition = a.queuePosition ∧
    (updateHeading a t v).speed = a.speed ∧
    (updateHeading a t v).id = a.id := by
  unfold updateHeading
  split <;> simp

/-- `_choose_next_target` never touches the kinematic position, the timers,
nor any constructor-fixed attribute of the agent. -/
theorem chooseNextTarget_fields (rng : Rng) (a : Agent) (qs : QStore) (a' : Agent) (qs' : QStore)
    (h : chooseNextTarget rng a qs = some (a', qs')) :
    a'.id = a.id ∧ a'.position = a.position ∧ a'.shoppingTime = a.shoppingTime ∧
    a'.paymentTime = a.paymentTime ∧ a'.cashZones = a.cashZones ∧
    a'.allZones = a.allZones ∧ a'.behavior = a.behavior ∧ a'.budget = a.budget ∧
    a'.speed = a.speed ∧ a'.exitPoints = a.exitPoints ∧ a'.serviceTime = a.serviceTime := by
  unfold chooseNextTarget at h
  repeat'
    first
    | split at h
    | (simp only [Option.some.injEq, Prod.mk.injEq, reduceCtorEq, eq_comm] at h)
  all_goals obtain ⟨h1, h2⟩ := h
  all_goals subst h1
  all_goals simp

/-- The fold inside `pyMinBy` yields the accumulator or a list element. -/
theorem pyMinBy_foldl_mem (lt : α → α → Prop) [DecidableRel lt] :
    ∀ (ys : List α) (acc : α),
      ys.foldl (fun best y => if lt y best then y else best) acc = acc ∨
      ys.foldl (fun best y => if lt y best then y else best) acc ∈ ys := by
  intro ys
  induction ys with
  | nil => intro acc; left; rfl
  | cons y ys ih =>
    intro acc
    simp only [List.foldl_cons]
    rcases ih (if lt y acc then y else acc) with h | h
    · rw [h]
      split
      · right; simp
      · left; rfl
    · right; simp [h]

/-- Python's `min` returns an element of its argument. -/
theorem pyMinBy_mem (lt : α → α → Prop) [DecidableRel lt] (l : List α) (x : α)
    (h : pyMinBy lt l = some x) : x ∈ l := by
  cases l with
  | nil => simp [pyMinBy] at h
  | cons y ys =>
    simp only [pyMinBy, Option.some.injEq] at h
    rcases pyMinBy_foldl_mem lt ys y with h' | h' <;> rw [← h]
    · rw [h']; simp
    · simp [h']

/-- The roulette loop returns one of the zipped zones. -/
theorem rouletteRun_mem : ∀ (r : ℝ) (l : List (Zone × ℝ)) (z : Zone),
    rouletteRun r l = some z → ∃ w, (z, w) ∈ l := by
  intro r l
  induction l generalizing r with
  | nil => intro z h; simp [rouletteRun] at h
  | cons p rest ih =>
    intro z h
    obtain ⟨p1, p2⟩ := p
    simp only [rouletteRun] at h
    split at h
    · obtain rfl := Option.some.inj h
      exact ⟨p2, by simp⟩
    · obtain ⟨w, hw⟩ := ih _ z h
      exact ⟨w, List.mem_cons_of_mem _ hw⟩

/-- `_weighted_choice` returns a member of its candidate list. -/
theorem weightedChoice_mem (a : Agent) (rng : Rng) (zones : List Zone) (z : Zone)
    (h : weightedChoice a rng zones = some z) : z ∈ zones := by
  unfold weightedChoice at h
  dsimp only at h
  split at h
  · exact List.get?_mem h
  · split at h
    · next z' hz' =>
      obtain rfl := Option.some.inj h
      obtain ⟨w, hw⟩ := rouletteRun_mem _ _ _ hz'
      exact (List.of_mem_zip hw).1
    · exact List.mem_of_mem_getLast? h

/-- `_weighted_choice` succeeds on a nonempty candidate list. -/
theorem weightedChoice_isSome (a : Agent) (rng : Rng) (zones : List Zone)
    (hz : zones ≠ []) : (weightedChoice a rng zones).isSome := by
  unfold weightedChoice
  dsimp only
  split
  · have hlen : rng.choiceIdx % zones.length < zones.length :=
      Nat.mod_lt _ (List.length_pos.mpr hz)
    rw [Option.isSome_iff_exists]
    exact ⟨zones.get ⟨_, hlen⟩, List.get?_eq_get hlen⟩
  · split
    · simp
    · exact List.getLast?_isSome.mpr hz

/-- The budget filter keeps a subset of the candidates. -/
theorem budgetFilter_subset (b : BudgetLevel) (zones : List Zone) :
    ∀ z ∈ budgetFilter b zones, z ∈ zones := by
  intro z hz
  unfold budgetFilter at hz
  rcases b
  · dsimp only at hz
    split at hz
    · exact hz
    · exact (List.mem_filter.mp hz).1
  · dsimp only at hz
    split at hz
    · exact hz
    · exact (List.mem_filter.mp hz).1
  · exact hz

/-- The right-hand-bias filter keeps a subset of the candidates. -/
theorem zonesToRight_subset (a : Agent) (zones : List Zone) :
    ∀ z ∈ zonesToRight a zones, z ∈ zones := by
  intro z hz
  exact (List.mem_filter.mp hz).1

/-- Removing the first zone with a given id from a list with distinct zone
ids and putting it in front is a permutation. -/
theorem perm_cons_eraseZone (l : List Zone) (z : Zone) (hz : z ∈ l)
    (hnd : (l.map Zone.id).Nodup) : l.Perm (z :: eraseZone l z.id) := by
  induction l with
  | nil => simp at hz
  | cons w t ih =>
    by_cases hid : w.id = z.id
    · have hzw : z = w := by
        rcases List.mem_cons.mp hz with rfl | hzt
        · rfl
        · exfalso
          have hmem : z.id ∈ t.map Zone.id := List.mem_map_of_mem _ hzt
          rw [← hid] at hmem
          exact (List.nodup_cons.mp hnd).1 hmem
      subst hzw
      have he : eraseZone (z :: t) z.id = t := by
        simp [eraseZone, List.eraseP_cons]
      rw [he]
    · have hzt : z ∈ t := by
        rcases List.mem_cons.mp hz with rfl | hmem
        · exact absurd rfl hid
        · exact hmem
      have hndt : (t.map Zone.id).Nodup := (List.nodup_cons.mp hnd).2
      have he : eraseZone (w :: t) z.id = w :: eraseZone t z.id := by
        simp [eraseZone, List.eraseP_cons, hid]
      rw [he]
      exact ((ih hzt hndt).cons w).trans (List.Perm.swap z w _)

/-- Appending a chosen unvisited zone to the visited list while erasing it
from the unvisited list permutes the combined zone list. -/
theorem visited_append_perm (v u : List Zone) (z : Zone) (hz : z ∈ u)
    (hnd : ((v ++ u).map Zone.id).Nodup) :
    ((v ++ [z]) ++ eraseZone u z.id).Perm (v ++ u) := by
  have hndu : (u.map Zone.id).Nodup := by
    rw [List.map_append] at hnd
    exact (List.nodup_append.mp hnd).2.1
  have hp := perm_cons_eraseZone u z hz hndu
  have h1 : (v ++ [z]) ++ eraseZone u z.id = v ++ (z :: eraseZone u z.id) := by simp
  rw [h1]
  exact List.Perm.append_left v hp.symm

/-- Each `_choose_next_target` call permutes `visited ++ unvisited`: the
selected zone moves from unvisited to visited, nothing else changes. -/
theorem chooseNextTarget_zones (rng : Rng) (a : Agent) (qs : QStore) (a' : Agent) (qs' : QStore)
    (h : chooseNextTarget rng a qs = some (a', qs'))
    (hnd : ((a.visitedZones ++ a.unvisitedZones).map Zone.id).Nodup) :
    (a'.visitedZones ++ a'.unvisitedZones).Perm (a.visitedZones ++ a.unvisitedZones) := by
  unfold chooseNextTarget at h
  repeat'
    first
    | split at h
    | (simp only [Option.some.injEq, Prod.mk.injEq, reduceCtorEq, eq_comm] at h)
  all_goals obtain ⟨h1, h2⟩ := h
  all_goals subst h1
  all_goals (try exact List.Perm.refl _)
  all_goals
    (rename_i z hw
     have hmem := budgetFilter_subset _ _ _ (weightedChoice_mem _ _ _ _ hw)
     have hz : z ∈ a.unvisitedZones := by
       first
       | exact hmem
       | exact zonesToRight_subset _ _ _ hmem
       | (split at hmem
          · exact zonesToRight_subset _ _ _ hmem
          · exact hmem)
     exact visited_append_perm a.visitedZones a.unvisitedZones z hz hnd)

/-- On a LEAVING agent `_choose_next_target` only sets the destination to
the nearest exit. -/
theorem chooseNextTarget_leaving (rng : Rng) (a : Agent) (qs : QStore) (a' : Agent) (qs' : QStore)
    (hL : a.state = CustomerState.LEAVING)
    (h : chooseNextTarget rng a qs = some (a', qs')) :
    ∃ e, pyMinBy (exitLt a) a.exitPoints = some e ∧
      a' = {a with destination := some e} ∧ qs' = qs := by
  unfold chooseNextTarget at h
  rw [if_pos hL] at h
  rcases hpm : pyMinBy (exitLt a) a.exitPoints with _ | e
  · rw [hpm] at h
    simp at h
  · rw [hpm] at h
    simp only [Option.some.injEq, Prod.mk.injEq] at h
    exact ⟨e, rfl, h.1.symm, h.2.symm⟩

/-- Effect of one `_choose_next_target` call on the shared queue counters:
for an agent holding no queue slot and with non-negative counters, either
nothing queue-related changes (and the agent does not end IN_QUEUE or
PAYING), or the agent joins exactly one checkout zone with free capacity,
incrementing its counter once. -/
theorem chooseNextTarget_queue (rng : Rng) (a : Agent) (qs : QStore) (a' : Agent) (qs' : QStore)
    (h : chooseNextTarget rng a qs = some (a', qs'))
    (hccz : a.currentCashZone = none)
    (h0 : ∀ w ∈ a.cashZones, 0 ≤ qs w.id) :
    (qs' = qs ∧ a'.currentCashZone = none ∧
      a'.state ≠ CustomerState.IN_QUEUE ∧ a'.state ≠ CustomerState.PAYING)
    ∨ (∃ w, w ∈ a.cashZones ∧ canJoinQueue qs w ∧
        qs' = Function.update qs w.id (qs w.id + 1) ∧
        a'.currentCashZone = some w ∧ a'.state = CustomerState.IN_QUEUE ∧
        a'.queuePosition = some (qs w.id + 1)) := by
  by_cases hL : a.state = CustomerState.LEAVING
  · obtain ⟨e, hpm, rfl, rfl⟩ := chooseNextTarget_leaving rng a qs a' qs' hL h
    left
    exact ⟨rfl, hccz, by simp [hL], by simp [hL]⟩
  · unfold chooseNextTarget at h
    rw [if_neg hL] at h
    dsimp only at h
    by_cases hJ : a.unvisitedZones = [] ∧ ¬a.cashZones = []
    · rw [if_pos hJ] at h
      rcases hpm : pyMinBy (cashLt a qs)
          (a.cashZones.filter fun z => decide (canJoinQueue qs z)) with _ | cash
      · rw [hpm] at h
        dsimp only at h
        rw [if_neg (by simp [hJ.1])] at h
        simp only [Option.some.injEq, Prod.mk.injEq] at h
        left
        refine ⟨h.2.symm, ?_, ?_, ?_⟩ <;> rw [← h.1] <;> simp [hccz]
      · rw [hpm] at h
        dsimp only at h
        have hmem := pyMinBy_mem _ _ _ hpm
        rw [List.mem_filter] at hmem
        obtain ⟨hcashmem, hcj⟩ := hmem
        rw [decide_eq_true_eq] at hcj
        have hres : (joinQueue qs cash).1 = qs cash.id + 1 := by
          rw [joinQueue, if_pos hcj]
        have hqs2 : (joinQueue qs cash).2 = Function.update qs cash.id (qs cash.id + 1) := by
          rw [joinQueue, if_pos hcj]
        have hpos : 0 < (joinQueue qs cash).1 := by
          rw [hres]
          have := h0 cash hcashmem
          omega
        rw [if_pos hpos] at h
        simp only [Option.some.injEq, Prod.mk.injEq] at h
        right
        refine ⟨cash, hcashmem, hcj, ?_, ?_, ?_, ?_⟩
        · rw [← h.2, hqs2]
        · rw [← h.1]
        · rw [← h.1]
        · rw [← h.1]
          simp [hres]
    · rw [if_neg hJ] at h
      dsimp only at h
      by_cases hU : ¬a.unvisitedZones = []
      · rw [if_pos hU] at h
        split at h
        · exact Option.noConfusion h
        · next z hw =>
          simp only [Option.some.injEq, Prod.mk.injEq] at h
          left
          refine ⟨h.2.symm, ?_, ?_, ?_⟩ <;> rw [← h.1] <;> simp [hccz]
      · rw [if_neg hU] at h
        simp only [Option.some.injEq, Prod.mk.injEq] at h
        left
        refine ⟨h.2.symm, ?_, ?_, ?_⟩ <;> rw [← h.1] <;> simp [hccz]

/-- `_update_heading` leaves `id` unchanged. -/
@[simp] theorem updateHeading_id (a : Agent) (t v : ℝ × ℝ) :
    (updateHeading a t v).id = a.id := by
  unfold updateHeading
  split <;> rfl

/-- `_update_heading` leaves `position` unchanged. -/
@[simp] theorem updateHeading_position (a : Agent) (t v : ℝ × ℝ) :
    (updateHeading a t v).position = a.position := by
  unfold updateHeading
  split <;> rfl

/-- `_update_heading` leaves `state` unchanged. -/
@[simp] theorem updateHeading_state (a : Agent) (t v : ℝ × ℝ) :
    (updateHeading a t v).state = a.state := by
  unfold updateHeading
  split <;> rfl

/-- `_update_heading` leaves `shoppingTime` unchanged. -/
@[simp] theorem updateHeading_shoppingTime (a : Agent) (t v : ℝ × ℝ) :
    (updateHeading a t v).shoppingTime = a.shoppingTime := by
  unfold updateHeading
  split <;> rfl

/-- `_update_heading` leaves `paymentTime` unchanged. -/
@[simp] theorem updateHeading_paymentTime (a : Agent) (t v : ℝ × ℝ) :
    (updateHeading a t v).paymentTime = a.paymentTime := by
  unfold updateHeading
  split <;> rfl

/-- `_update_heading` leaves `currentCashZone` unchanged. -/
@[simp] theorem updateHeading_currentCashZone (a : Agent) (t v : ℝ × ℝ) :
    (updateHeading a t v).currentCashZone = a.currentCashZone := by
  unfold updateHeading
  split <;> rfl

/-- `_update_heading` leaves `cashZones` unchanged. -/
@[simp] theorem updateHeading_cashZones (a : Agent) (t v : ℝ × ℝ) :
    (updateHeading a t v).cashZones = a.cashZones := by
  unfold updateHeading
  split <;> rfl

/-- `_update_heading` leaves `allZones` unchanged. -/
@[simp] theorem updateHeading_allZones (a : Agent) (t v : ℝ × ℝ) :
    (updateHeading a t v).allZones = a.allZones := by
  unfold updateHeading
  split <;> rfl

/-- `_update_heading` leaves `unvisitedZones` unchanged. -/
@[simp] theorem updateHeading_unvisitedZones (a : Agent) (t v : ℝ × ℝ) :
    (updateHeading a t v).unvisitedZones = a.unvisitedZones := by
  unfold updateHeading
  split <;> rfl

/-- `_update_heading` leaves `visitedZones` unchanged. -/
@[simp] theorem updateHeading_visitedZones (a : Agent) (t v : ℝ × ℝ) :
    (updateHeading a t v).visitedZones = a.visitedZones := by
  unfold updateHeading
  split <;> rfl

/-- `_update_heading` leaves `queuePosition` unchanged. -/
@[simp] theorem updateHeading_queuePosition (a : Agent) (t v : ℝ × ℝ) :
    (updateHeading a t v).queuePosition = a.queuePosition := by
  unfold updateHeading
  split <;> rfl

/-- `_update_heading` leaves `speed` unchanged. -/
@[simp] theorem updateHeading_speed (a : Agent) (t v : ℝ × ℝ) :
    (updateHeading a t v).speed = a.speed := by
  unfold updateHeading
  split <;> rfl

/-- `_update_heading` leaves `behavior` unchanged. -/
@[simp] theorem updateHeading_behavior (a : Agent) (t v : ℝ × ℝ) :
    (updateHeading a t v).behavior = a.behavior := by
  unfold updateHeading
  split <;> rfl

/-- `_update_heading` leaves `budget` unchanged. -/
@[simp] theorem updateHeading_budget (a : Agent) (t v : ℝ × ℝ) :
    (updateHeading a t v).budget = a.budget := by
  unfold updateHeading
  split <;> rfl

/-- `_update_heading` leaves `exitPoints` unchanged. -/
@[simp] theorem updateHeading_exitPoints (a : Agent) (t v : ℝ × ℝ) :
    (updateHeading a t v).exitPoints = a.exitPoints := by
  unfold updateHeading
  split <;> rfl

/-- `_update_heading` leaves `serviceTime` unchanged. -/
@[simp] theorem updateHeading_serviceTime (a : Agent) (t v : ℝ × ℝ) :
    (updateHeading a t v).serviceTime = a.serviceTime := by
  unfold updateHeading
  split <;> rfl

/-- `_update_heading` leaves `dims` unchanged. -/
@[simp] theorem updateHeading_dims (a : Agent) (t v : ℝ × ℝ) :
    (updateHeading a t v).dims = a.dims := by
  unfold updateHeading
  split <;> rfl

/-- `_update_heading` leaves `scale` unchanged. -/
@[simp] theorem updateHeading_scale (a : Agent) (t v : ℝ × ℝ) :
    (updateHeading a t v).scale = a.scale := by
  unfold updateHeading
  split <;> rfl

/-- `_update_heading` leaves `realSpeed` unchanged. -/
@[simp] theorem updateHeading_realSpeed (a : Agent) (t v : ℝ × ℝ) :
    (updateHeading a t v).realSpeed = a.realSpeed := by
  unfold updateHeading
  split <;> rfl

/-- `_update_heading` leaves `destination` unchanged. -/
@[simp] theorem updateHeading_destination (a : Agent) (t v : ℝ × ℝ) :
    (updateHeading a t v).destination = a.destination := by
  unfold updateHeading
  split <;> rfl

/-- `_update_heading` leaves `minShoppingTime` unchanged. -/
@[simp] theorem updateHeading_minShoppingTime (a : Agent) (t v : ℝ × ℝ) :
    (updateHeading a t v).minShoppingTime = a.minShoppingTime := by
  unfold updateHeading
  split <;> rfl

/-- `_update_heading` leaves `maxShoppingTime` unchanged. -/
@[simp] theorem updateHeading_maxShoppingTime (a : Agent) (t v : ℝ × ℝ) :
    (updateHeading a t v).maxShoppingTime = a.maxShoppingTime := by
  unfold updateHeading
  split <;> rfl

/-- `_update_heading` leaves `firstMove` unchanged. -/
@[simp] theorem updateHeading_firstMove (a : Agent) (t v : ℝ × ℝ) :
    (updateHeading a t v).firstMove = a.firstMove := by
  unfold updateHeading
  split <;> rfl

/-- `_update_heading` leaves `entryHeading` unchanged. -/
@[simp] theorem updateHeading_entryHeading (a : Agent) (t v : ℝ × ℝ) :
    (updateHeading a t v).entryHeading = a.entryHeading := by
  unfold updateHeading
  split <;> rfl

/-- `_update_heading` leaves `rewardSensitivity` unchanged. -/
@[simp] theorem updateHeading_rewardSensitivity (a : Agent) (t v : ℝ × ℝ) :
    (updateHeading a t v).rewardSensitivity = a.rewardSensitivity := by
  unfold updateHeading
  split <;> rfl

/-- `_update_heading` leaves `costSensitivity` unchanged. -/
@[simp] theorem updateHeading_costSensitivity (a : Agent) (t v : ℝ × ℝ) :
    (updateHeading a t v).costSensitivity = a.costSensitivity := by
  unfold updateHeading
  split <;> rfl

/-- `_update_heading` leaves `imageryVividness` unchanged. -/
@[simp] theorem updateHeading_imageryVividness (a : Agent) (t v : ℝ × ℝ) :
    (updateHeading a t v).imageryVividness = a.imageryVividness := by
  unfold updateHeading
  split <;> rfl

/-- `_update_heading` leaves `anticipatoryEmotionWeight` unchanged. -/
@[simp] theorem updateHeading_anticipatoryEmotionWeight (a : Agent) (t v : ℝ × ℝ) :
    (updateHeading a t v).anticipatoryEmotionWeight = a.anticipatoryEmotionWeight := by
  unfold updateHeading
  split <;> rfl

/-- `_update_heading` leaves `impulseProb` unchanged. -/
@[simp] theorem updateHeading_impulseProb (a : Agent) (t v : ℝ × ℝ) :
    (updateHeading a t v).impulseProb = a.impulseProb := by
  unfold updateHeading
  split <;> rfl

/-- Static fields preserved by a full movement step. -/
theorem moveTowardsTarget_fields (avoidFn : Agent → List Agent → ℝ × ℝ) (others : List Agent)
    (dt : ℝ) (rng : Rng) (a : Agent) (qs : QStore) (a' : Agent) (qs' : QStore)
    (h : moveTowardsTarget avoidFn others dt rng a qs = some (a', qs')) :
    a'.id = a.id ∧ a'.cashZones = a.cashZones ∧ a'.allZones = a.allZones ∧
    a'.behavior = a.behavior ∧ a'.budget = a.budget ∧ a'.speed = a.speed ∧
    a'.exitPoints = a.exitPoints ∧ a'.serviceTime = a.serviceTime := by
  unfold moveTowardsTarget at h
  repeat'
    first
    | split at h
    | (simp only [Option.some.injEq, Prod.mk.injEq, reduceCtorEq, eq_comm] at h)
  all_goals
    first
    | (have hc := chooseNextTarget_fields _ _ _ _ _ h
       simp_all)
    | (have hc := chooseNextTarget_fields _ _ _ _ _ h.symm
       simp_all)
    | (obtain ⟨h1, h2⟩ := h
       subst h1
       simp)

attribute [local irreducible] chooseNextTarget in
theorem moveTowardsTarget_zones (avoidFn : Agent → List Agent → ℝ × ℝ) (others : List Agent)
    (dt : ℝ) (rng : Rng) (a : Agent) (qs : QStore) (a' : Agent) (qs' : QStore)
    (h : moveTowardsTarget avoidFn others dt rng a qs = some (a', qs'))
    (hnd : ((a.visitedZones ++ a.unvisitedZones).map Zone.id).Nodup) :
    (a'.visitedZones ++ a'.unvisitedZones).Perm (a.visitedZones ++ a.unvisitedZones) := by
  unfold moveTowardsTarget at h
  repeat'
    first
    | split at h
    | (simp only [Option.some.injEq, Prod.mk.injEq, reduceCtorEq, eq_comm] at h)
    | (dsimp only at h)
  all_goals
    first
    | (have hz := chooseNextTarget_zones _ _ _ _ _ h hnd
       exact hz)
    | (have hz := chooseNextTarget_zones _ _ _ _ _ h.symm hnd
       exact hz)
    | (obtain ⟨h1, h2⟩ := h
       subst h1
       simp)

/-- Effect of one movement step on the shared queue counters: either
nothing queue-related changes (and an agent holding a slot is still
IN_QUEUE or PAYING), or the agent joins one checkout zone with free
capacity (+1), or a PAYING agent releases its zone (-1). -/
theorem moveTowardsTarget_queue (avoidFn : Agent → List Agent → ℝ × ℝ) (others : List Agent)
    (dt : ℝ) (rng : Rng) (a : Agent) (qs : QStore) (a' : Agent) (qs' : QStore)
    (h : moveTowardsTarget avoidFn others dt rng a qs = some (a', qs'))
    (hccz : ∀ w, a.currentCashZone = some w →
      a.state = CustomerState.IN_QUEUE ∨ a.state = CustomerState.PAYING)
    (h0 : ∀ w ∈ a.cashZones, 0 ≤ qs w.id) :
    (qs' = qs ∧ a'.currentCashZone = a.currentCashZone ∧
      (∀ w, a'.currentCashZone = some w →
        a'.state = CustomerState.IN_QUEUE ∨ a'.state = CustomerState.PAYING))
    ∨ (∃ w, w ∈ a.cashZones ∧ canJoinQueue qs w ∧
        qs' = Function.update qs w.id (qs w.id + 1) ∧
        a.currentCashZone = none ∧ a'.currentCashZone = some w ∧
        a'.state = CustomerState.IN_QUEUE)
    ∨ (∃ w, a.currentCashZone = some w ∧ a.state = CustomerState.PAYING ∧
        qs' = Function.update qs w.id (qs w.id - 1) ∧ a'.currentCashZone = none) := by
  unfold moveTowardsTarget at h
  by_cases hF : a.state = CustomerState.FINISHED
  · rw [if_pos hF] at h
    simp only [Option.some.injEq, Prod.mk.injEq] at h
    obtain ⟨h1, h2⟩ := h
    subst h1
    left
    exact ⟨h2.symm, rfl, hccz⟩
  · rw [if_neg hF] at h
    by_cases hS : a.state = CustomerState.SHOPPING
    · rw [if_pos hS] at h
      dsimp only at h
      have hcz : a.currentCashZone = none := by
        rcases hcz0 : a.currentCashZone with _ | w
        · rfl
        · rcases hccz w hcz0 with h' | h' <;>
            exact absurd (h'.symm.trans hS) (by decide)
      split at h
      · have hq := chooseNextTarget_queue _ _ _ _ _ h hcz h0
        rcases hq with ⟨hq1, hq2, _, _⟩ | ⟨w, hw1, hw2, hw3, hw4, hw5, _⟩
        · left
          refine ⟨hq1, by rw [hq2, hcz], ?_⟩
          intro w hw
          rw [hq2] at hw
          cases hw
        · right; left
          exact ⟨w, hw1, hw2, hw3, hcz, hw4, hw5⟩
      · simp only [Option.some.injEq, Prod.mk.injEq] at h
        obtain ⟨h1, h2⟩ := h
        subst h1
        left
        refine ⟨h2.symm, rfl, ?_⟩
        intro w hw
        have hw' : a.currentCashZone = some w := hw
        rw [hcz] at hw'
        cases hw'
    · by_cases hP : a.state = CustomerState.PAYING
      · rw [if_neg hS, if_pos hP] at h
        dsimp only at h
        split at h
        · rcases hcz0 : a.currentCashZone with _ | z
          · rw [hcz0] at h
            dsimp only at h
            obtain ⟨e, hpm, rfl, rfl⟩ := chooseNextTarget_leaving _ _ _ _ _ rfl h
            left
            refine ⟨rfl, rfl, ?_⟩
            intro w hw
            exact Option.noConfusion hw
          · rw [hcz0] at h
            dsimp only at h
            obtain ⟨e, hpm, rfl, rfl⟩ := chooseNextTarget_leaving _ _ _ _ _ rfl h
            right; right
            exact ⟨z, rfl, hP, rfl, rfl⟩
        · simp only [Option.some.injEq, Prod.mk.injEq] at h
          obtain ⟨h1, h2⟩ := h
          subst h1
          left
          refine ⟨h2.symm, rfl, ?_⟩
          intro w _
          right
          exact hP
      · by_cases hQ : a.state = CustomerState.IN_QUEUE
        · rw [if_neg hS, if_neg hP, if_pos hQ] at h
          rcases hcz0 : a.currentCashZone with _ | cz
          · rw [hcz0] at h
            dsimp only at h
            simp only [Option.some.injEq, Prod.mk.injEq] at h
            obtain ⟨h1, h2⟩ := h
            subst h1
            left
            exact ⟨h2.symm, hcz0, hccz⟩
          · rw [hcz0] at h
            dsimp only at h
            split at h
            · simp only [Option.some.injEq, Prod.mk.injEq] at h
              obtain ⟨h1, h2⟩ := h
              subst h1
              left
              refine ⟨h2.symm, rfl, ?_⟩
              intro w _
              right
              rfl
            · split at h
              · split at h
                · simp only [Option.some.injEq, Prod.mk.injEq] at h
                  obtain ⟨h1, h2⟩ := h
                  subst h1
                  left
                  refine ⟨h2.symm, by simpa using hcz0, ?_⟩
                  intro w hw
                  left
                  simp only [updateHeading_state]
                  exact hQ
                · simp only [Option.some.injEq, Prod.mk.injEq] at h
                  obtain ⟨h1, h2⟩ := h
                  subst h1
                  left
                  exact ⟨h2.symm, hcz0, hccz⟩
              · simp only [Option.some.injEq, Prod.mk.injEq] at h
                obtain ⟨h1, h2⟩ := h
                subst h1
                left
                exact ⟨h2.symm, hcz0, hccz⟩
        · rw [if_neg hS, if_neg hP, if_neg hQ] at h
          have hcz : a.currentCashZone = none := by
            rcases hcz0 : a.currentCashZone with _ | w
            · rfl
            · rcases hccz w hcz0 with h' | h'
              · exact absurd h' hQ
              · exact absurd h' hP
          rcases hd : a.destination with _ | d
          · rw [hd] at h
            dsimp only at h
            simp only [Option.some.injEq, Prod.mk.injEq] at h
            obtain ⟨h1, h2⟩ := h
            subst h1
            left
            exact ⟨h2.symm, rfl, hccz⟩
          · rw [hd] at h
            dsimp only at h
            split at h
            · split at h
              · split at h
                · split at h
                  · simp only [Option.some.injEq, Prod.mk.injEq] at h
                    obtain ⟨h1, h2⟩ := h
                    subst h1
                    left
                    refine ⟨h2.symm, rfl, ?_⟩
                    intro w hw
                    have hw' : a.currentCashZone = some w := hw
                    rw [hcz] at hw'
                    cases hw'
                  · have hq := chooseNextTarget_queue _ _ _ _ _ h hcz h0
                    rcases hq with ⟨hq1, hq2, _, _⟩ | ⟨w, hw1, hw2, hw3, hw4, hw5, _⟩
                    · left
                      refine ⟨hq1, by rw [hq2, hcz], ?_⟩
                      intro w hw
                      rw [hq2] at hw
                      cases hw
                    · right; left
                      exact ⟨w, hw1, hw2, hw3, hcz, hw4, hw5⟩
                · simp only [Option.some.injEq, Prod.mk.injEq] at h
                  obtain ⟨h1, h2⟩ := h
                  subst h1
                  left
                  refine ⟨h2.symm, rfl, ?_⟩
                  intro w hw
                  have hw' : a.currentCashZone = some w := hw
                  rw [hcz] at hw'
                  cases hw'
              · split at h
                · split at h
                  · simp only [Option.some.injEq, Prod.mk.injEq] at h
                    obtain ⟨h1, h2⟩ := h
                    subst h1
                    left
                    refine ⟨h2.symm, rfl, ?_⟩
                    intro w hw
                    have hw' : a.currentCashZone = some w := hw
                    rw [hcz] at hw'
                    cases hw'
                  · simp only [Option.some.injEq, Prod.mk.injEq] at h
                    obtain ⟨h1, h2⟩ := h
                    subst h1
                    left
                    refine ⟨h2.symm, rfl, ?_⟩
                    intro w hw
                    have hw' : a.currentCashZone = some w := hw
                    rw [hcz] at hw'
                    cases hw'
                · have hq := chooseNextTarget_queue _ _ _ _ _ h hcz h0
                  rcases hq with ⟨hq1, hq2, _, _⟩ | ⟨w, hw1, hw2, hw3, hw4, hw5, _⟩
                  · left
                    refine ⟨hq1, by rw [hq2, hcz], ?_⟩
                    intro w hw
                    rw [hq2] at hw
                    cases hw
                  · right; left
                    exact ⟨w, hw1, hw2, hw3, hcz, hw4, hw5⟩
            · simp only [Option.some.injEq, Prod.mk.injEq] at h
              obtain ⟨h1, h2⟩ := h
              subst h1
              left
              refine ⟨h2.symm, by simp, ?_⟩
              intro w hw
              simp only [updateHeading_currentCashZone] at hw
              rw [hcz] at hw
              cases hw

/-- Replacing element `i` changes a filtered length by the difference of
the predicate on the old and new element. -/
theorem filter_length_set (l : List Agent) (i : ℕ) (a b : Agent) (p : Agent → Bool)
    (hget : l.get? i = some a) :
    ((l.set i b).filter p).length + (if p a then 1 else 0) =
    (l.filter p).length + (if p b then 1 else 0) := by
  induction l generalizing i with
  | nil => simp at hget
  | cons x t ih =>
    cases i with
    | zero =>
      simp only [List.get?, Option.some.injEq] at hget
      subst hget
      simp only [List.set, List.filter_cons]
      cases hp : p x <;> cases hpb : p b <;> simp [hp, hpb] <;> omega
    | succ n =>
      simp only [List.get?] at hget
      have hrec := ih n hget
      simp only [List.set, List.filter_cons]
      cases hp : p x <;> cases hpa : p a <;> cases hpb : p b <;>
        simp [hp, hpa, hpb] at hrec ⊢ <;> omega

/-- In a layout with distinct zone ids, zones are determined by their id. -/
theorem zone_id_inj (Z : List Zone) (hZ : (Z.map Zone.id).Nodup)
    (z w : Zone) (hz : z ∈ Z) (hw : w ∈ Z) (h : z.id = w.id) : z = w :=
  List.inj_on_of_nodup_map hZ hz hw h

/-- Every simulation step preserves the queue-protocol invariant. -/
theorem simStep_inv (Z : List Zone) (hZ : (Z.map Zone.id).Nodup) (st st' : Sim)
    (hstep : SimStep Z st st') (hinv : SimInv Z st) : SimInv Z st' := by
  obtain ⟨inv1, inv2, inv3, inv4⟩ := hinv
  cases hstep with
  | tick i avoidFn dt rng a a' qs' hget hmv =>
    have hmem : a ∈ st.agents := List.get?_mem hget
    have hccz : ∀ w, a.currentCashZone = some w →
        a.state = CustomerState.IN_QUEUE ∨ a.state = CustomerState.PAYING :=
      fun w hw => (inv2 a hmem w hw).2
    have h0 : ∀ w ∈ a.cashZones, 0 ≤ st.qs w.id := by
      intro w hw
      rw [inv1 w (inv3 a hmem w hw)]
      exact_mod_cast Nat.zero_le _
    obtain ⟨_, hcsh, _, _, _, _, _, _⟩ := moveTowardsTarget_fields _ _ _ _ _ _ _ _ hmv
    have hcount := fun (z : Zone) =>
      filter_length_set st.agents i a a' (fun ag => decide (holdsZone z ag)) hget
    rcases moveTowardsTarget_queue _ _ _ _ _ _ _ _ hmv hccz h0 with
      ⟨hq1, hq2, hq3⟩ | ⟨w, hw1, hw2, hw3, hw4, hw5, hw6⟩ | ⟨w, hw1, hw2, hw3, hw4⟩
    · -- neutral step
      subst hq1
      refine ⟨?_, ?_, ?_, ?_⟩
      · intro z hz
        dsimp only
        have heqp : decide (holdsZone z a') = decide (holdsZone z a) := by
          simp only [decide_eq_decide]
          unfold holdsZone
          rw [hq2]
        have hc := hcount z
        rw [heqp] at hc
        have h1 := inv1 z hz
        omega
      · intro ag hag w' hw'
        rcases List.mem_or_eq_of_mem_set hag with hmem' | rfl
        · exact inv2 ag hmem' w' hw'
        · refine ⟨?_, hq3 w' hw'⟩
          rw [hq2] at hw'
          exact (inv2 a hmem w' hw').1
      · intro ag hag w' hw'
        rcases List.mem_or_eq_of_mem_set hag with hmem' | rfl
        · exact inv3 ag hmem' w' hw'
        · rw [hcsh] at hw'
          exact inv3 a hmem w' hw'
      · exact inv4
    · -- join step
      subst hw3
      have hwZ : w ∈ Z := inv3 a hmem w hw1
      refine ⟨?_, ?_, ?_, ?_⟩
      · intro z hz
        dsimp only
        have hpa : decide (holdsZone z a) = false := by
          simp [holdsZone, hw4]
        have hc := hcount z
        rw [hpa] at hc
        rw [Function.update_apply]
        by_cases hid : z.id = w.id
        · rw [if_pos hid]
          have hpb : decide (holdsZone z a') = true := by
            simp only [decide_eq_true_eq]
            exact ⟨w, hw5, hid.symm⟩
          rw [hpb] at hc
          have h1 := inv1 z hz
          rw [← hid]
          simp at hc
          omega
        · rw [if_neg hid]
          have hpb : decide (holdsZone z a') = false := by
            simp only [decide_eq_false_iff_not]
            unfold holdsZone
            rw [hw5]
            rintro ⟨w', hww', hwid⟩
            obtain rfl := Option.some.inj hww'
            exact hid (hwid.symm)
          rw [hpb] at hc
          simp at hc
          have h1 := inv1 z hz
          omega
      · intro ag hag w' hw'
        rcases List.mem_or_eq_of_mem_set hag with hmem' | rfl
        · exact inv2 ag hmem' w' hw'
        · rw [hw5] at hw'
          obtain rfl := Option.some.inj hw'
          exact ⟨hwZ, Or.inl hw6⟩
      · intro ag hag w' hw'
        rcases List.mem_or_eq_of_mem_set hag with hmem' | rfl
        · exact inv3 ag hmem' w' hw'
        · rw [hcsh] at hw'
          exact inv3 a hmem w' hw'
      · intro z hz
        dsimp only
        rw [Function.update_apply]
        by_cases hid : z.id = w.id
        · rw [if_pos hid]
          have hzw : z = w := zone_id_inj Z hZ z w hz hwZ hid
          subst hzw
          unfold canJoinQueue at hw2
          omega
        · rw [if_neg hid]
          exact inv4 z hz
    · -- release step
      subst hw3
      have hwZ : w ∈ Z := (inv2 a hmem w hw1).1
      refine ⟨?_, ?_, ?_, ?_⟩
      · intro z hz
        dsimp only
        have hc := hcount z
        have hpb : decide (holdsZone z a') = false := by
          simp [holdsZone, hw4]
        rw [hpb] at hc
        rw [Function.update_apply]
        by_cases hid : z.id = w.id
        · rw [if_pos hid]
          have hpa : decide (holdsZone z a) = true := by
            simp only [decide_eq_true_eq]
            exact ⟨w, hw1, hid.symm⟩
          rw [hpa] at hc
          simp at hc
          have h1 := inv1 z hz
          rw [← hid]
          omega
        · rw [if_neg hid]
          have hpa : decide (holdsZone z a) = false := by
            simp only [decide_eq_false_iff_not]
            unfold holdsZone
            rw [hw1]
            rintro ⟨w', hww', hwid⟩
            obtain rfl := Option.some.inj hww'
            exact hid (hwid.symm)
          rw [hpa] at hc
          simp at hc
          have h1 := inv1 z hz
          omega
      · intro ag hag w' hw'
        rcases List.mem_or_eq_of_mem_set hag with hmem' | rfl
        · exact inv2 ag hmem' w' hw'
        · rw [hw4] at hw'
          cases hw'
      · intro ag hag w' hw'
        rcases List.mem_or_eq_of_mem_set hag with hmem' | rfl
        · exact inv3 ag hmem' w' hw'
        · rw [hcsh] at hw'
          exact inv3 a hmem w' hw'
      · intro z hz
        dsimp only
        rw [Function.update_apply]
        by_cases hid : z.id = w.id
        · rw [if_pos hid]
          have h4 := inv4 z hz
          rw [hid] at h4
          omega
        · rw [if_neg hid]
          exact inv4 z hz
  | spawn rng p a qs' hcash hnodup hsp =>
    have hcz0 : (mkAgent p).currentCashZone = none := rfl
    have h0 : ∀ w ∈ (mkAgent p).cashZones, 0 ≤ st.qs w.id := by
      intro w hw
      rw [inv1 w (hcash w hw)]
      exact_mod_cast Nat.zero_le _
    obtain ⟨_, _, _, _, hcsh, _, _, _, _, _, _⟩ := chooseNextTarget_fields _ _ _ _ _ hsp
    rcases chooseNextTarget_queue _ _ _ _ _ hsp hcz0 h0 with
      ⟨hq1, hq2, hq3, hq4⟩ | ⟨w, hw1, hw2, hw3, hw4, hw5, hw6⟩
    · subst hq1
      refine ⟨?_, ?_, ?_, ?_⟩
      · intro z hz
        dsimp only
        rw [List.filter_append]
        have hpb : decide (holdsZone z a) = false := by
          simp [holdsZone, hq2]
        simp only [List.filter_cons, hpb, List.filter_nil, List.length_append]
        simp
        exact inv1 z hz
      · intro ag hag w' hw'
        rcases List.mem_append.mp hag with hmem' | hmem'
        · exact inv2 ag hmem' w' hw'
        · obtain rfl := List.mem_singleton.mp hmem'
          rw [hq2] at hw'
          cases hw'
      · intro ag hag w' hw'
        rcases List.mem_append.mp hag with hmem' | hmem'
        · exact inv3 ag hmem' w' hw'
        · obtain rfl := List.mem_singleton.mp hmem'
          rw [hcsh] at hw'
          exact hcash w' hw'
      · exact inv4
    · subst hw3
      have hwZ : w ∈ Z := hcash w hw1
      refine ⟨?_, ?_, ?_, ?_⟩
      · intro z hz
        dsimp only
        rw [List.filter_append, Function.update_apply]
        by_cases hid : z.id = w.id
        · rw [if_pos hid]
          have hpb : decide (holdsZone z a) = true := by
            simp only [decide_eq_true_eq]
            exact ⟨w, hw4, hid.symm⟩
          simp only [List.filter_cons, hpb, List.filter_nil, List.length_append]
          simp
          have h1 := inv1 z hz
          rw [← hid]
          omega
        · rw [if_neg hid]
          have hpb : decide (holdsZone z a) = false := by
            simp only [decide_eq_false_iff_not]
            unfold holdsZone
            rw [hw4]
            rintro ⟨w', hww', hwid⟩
            obtain rfl := Option.some.inj hww'
            exact hid (hwid.symm)
          simp only [List.filter_cons, hpb, List.filter_nil, List.length_append]
          simp
          exact inv1 z hz
      · intro ag hag w' hw'
        rcases List.mem_append.mp hag with hmem' | hmem'
        · exact inv2 ag hmem' w' hw'
        · obtain rfl := List.mem_singleton.mp hmem'
          rw [hw4] at hw'
          obtain rfl := Option.some.inj hw'
          exact ⟨hwZ, Or.inl hw5⟩
      · intro ag hag w' hw'
        rcases List.mem_append.mp hag with hmem' | hmem'
        · exact inv3 ag hmem' w' hw'
        · obtain rfl := List.mem_singleton.mp hmem'
          rw [hcsh] at hw'
          exact hcash w' hw'
      · intro z hz
        dsimp only
        rw [Function.update_apply]
        by_cases hid : z.id = w.id
        · rw [if_pos hid]
          have hzw : z = w := zone_id_inj Z hZ z w hz hwZ hid
          subst hzw
          unfold canJoinQueue at hw2
          omega
        · rw [if_neg hid]
          exact inv4 z hz
  | reposition i a pos hget =>
    have hmem : a ∈ st.agents := List.get?_mem hget
    have hcount := fun (z : Zone) =>
      filter_length_set st.agents i a {a with position := pos}
        (fun ag => decide (holdsZone z ag)) hget
    refine ⟨?_, ?_, ?_, ?_⟩
    · intro z hz
      dsimp only
      have heqp : decide (holdsZone z ({a with position := pos} : Agent))
          = decide (holdsZone z a) := rfl
      have hc := hcount z
      rw [heqp] at hc
      have h1 := inv1 z hz
      omega
    · intro ag hag w' hw'
      rcases List.mem_or_eq_of_mem_set hag with hmem' | rfl
      · exact inv2 ag hmem' w' hw'
      · have hw2 : a.currentCashZone = some w' := hw'
        exact inv2 a hmem w' hw2
    · intro ag hag w' hw'
      rcases List.mem_or_eq_of_mem_set hag with hmem' | rfl
      · exact inv3 ag hmem' w' hw'
      · have hw2 : w' ∈ a.cashZones := hw'
        exact inv3 a hmem w' hw2
    · exact inv4

/-- C5: in every reachable simulation state, every checkout zone's queue
counter satisfies `0 ≤ queue_length ≤ max_queue_length`: `join_queue`
increments only below capacity and each payment completion releases an
earlier successful join exactly once. -/
theorem reachable_queue_length_bounds (Z : List Zone) (st : Sim)
    (hZ : (Z.map Zone.id).Nodup) (hmax : ∀ z ∈ Z, 0 ≤ z.maxQueueLength)
    (hr : SimReachable Z st) :
    ∀ z ∈ Z, 0 ≤ st.qs z.id ∧ st.qs z.id ≤ z.maxQueueLength := by
  have hinv : SimInv Z st := by
    induction hr with
    | init =>
      refine ⟨?_, ?_, ?_, ?_⟩
      · intro z hz
        simp [initSim]
      · intro ag hag
        simp [initSim] at hag
      · intro ag hag
        simp [initSim] at hag
      · intro z hz
        simpa [initSim] using hmax z hz
    | step hr' hstep ih => exact simStep_inv Z hZ _ _ hstep ih
  intro z hz
  refine ⟨?_, hinv.2.2.2 z hz⟩
  rw [hinv.1 z hz]
  exact_mod_cast Nat.zero_le _

/-- Witness for the queue-bound invariant at a concrete layout. -/
theorem reachable_queue_length_bounds_witness :
    (([zCash].map Zone.id).Nodup) ∧ (∀ z ∈ [zCash], 0 ≤ z.maxQueueLength) ∧
    (∀ z ∈ [zCash], 0 ≤ initSim.qs z.id ∧ initSim.qs z.id ≤ z.maxQueueLength) :=
  ⟨by simp,
   by
    intro z hz
    rw [List.mem_singleton] at hz
    subst hz
    norm_num [zCash],
   reachable_queue_length_bounds [zCash] initSim (by simp)
    (by
      intro z hz
      rw [List.mem_singleton] at hz
      subst hz
      norm_num [zCash])
    SimReachable.init⟩

/-- C7: in every reachable simulation state, every agent's visited and
unvisited zone lists partition its initial product-zone list: their
concatenation is a permutation of `all_zones` and they are disjoint. -/
theorem reachable_zone_partition (Z : List Zone) (st : Sim) (hr : SimReachable Z st) :
    ∀ ag ∈ st.agents,
      (ag.visitedZones ++ ag.unvisitedZones).Perm ag.allZones ∧
      ∀ z ∈ ag.visitedZones, z ∉ ag.unvisitedZones := by
  have hinv : ∀ ag ∈ st.agents,
      (ag.visitedZones ++ ag.unvisitedZones).Perm ag.allZones ∧
      (ag.allZones.map Zone.id).Nodup := by
    induction hr with
    | init =>
      intro ag hag
      simp [initSim] at hag
    | step hr' hstep ih =>
      cases hstep with
      | tick i avoidFn dt rng a a' qs' hget hmv =>
        intro ag hag
        rcases List.mem_or_eq_of_mem_set hag with hmem' | rfl
        · exact ih ag hmem'
        · obtain ⟨hperm, hnd⟩ := ih a (List.get?_mem hget)
          have hnd2 : ((a.visitedZones ++ a.unvisitedZones).map Zone.id).Nodup :=
            (List.Perm.nodup_iff (hperm.map Zone.id)).mpr hnd
          have hp := moveTowardsTarget_zones _ _ _ _ _ _ _ _ hmv hnd2
          obtain ⟨_, _, hall, _, _, _, _, _⟩ := moveTowardsTarget_fields _ _ _ _ _ _ _ _ hmv
          rw [hall]
          exact ⟨hp.trans hperm, hnd⟩
      | spawn rng p a qs' hcash hnodup hsp =>
        intro ag hag
        rcases List.mem_append.mp hag with hmem' | hmem'
        · exact ih ag hmem'
        · obtain rfl := List.mem_singleton.mp hmem'
          have hnd2 : (((mkAgent p).visitedZones ++ (mkAgent p).unvisitedZones).map Zone.id).Nodup := by
            simpa [mkAgent] using hnodup
          have hp := chooseNextTarget_zones _ _ _ _ _ hsp hnd2
          obtain ⟨_, _, _, _, _, hall, _⟩ := chooseNextTarget_fields _ _ _ _ _ hsp
          rw [hall]
          constructor
          · refine hp.trans ?_
            simp [mkAgent]
          · simpa [mkAgent] using hnodup
      | reposition i a pos hget =>
        intro ag hag
        rcases List.mem_or_eq_of_mem_set hag with hmem' | rfl
        · exact ih ag hmem'
        · exact ih a (List.get?_mem hget)
  intro ag hag
  obtain ⟨hperm, hnd⟩ := hinv ag hag
  refine ⟨hperm, ?_⟩
  intro z hzv hzu
  have hndvu : ((ag.visitedZones ++ ag.unvisitedZones).map Zone.id).Nodup :=
    (List.Perm.nodup_iff (hperm.map Zone.id)).mpr hnd
  rw [List.map_append] at hndvu
  have hdisj := (List.nodup_append.mp hndvu).2.2
  exact hdisj (List.mem_map_of_mem _ hzv) (List.mem_map_of_mem _ hzu)

/-- Spawning the first C10 shopper into the empty store. -/
theorem spawnQ1 : spawnAgent rng0 (pQ 1) initSim.qs = some (aQ1, qsA) := rfl

/-- Spawning the second C10 shopper: the counter hands out slot 2. -/
theorem spawnQ2 : spawnAgent rng0 (pQ 2) qsA = some (aQ2, qsB) := rfl

/-- The head check of `move_towards_target` promotes `aQ1` to PAYING. -/
theorem tickQ3 : moveTowardsTarget avoid0 [aQ1, aQ2] 0 rng0 aQ1 qsB = some (aQ1p, qsB) := rfl

/-- Spawning the third C10 shopper after the decrement: it receives slot 2
again. -/
theorem spawnQ3 : spawnAgent rng0 (pQ 3) qsC = some (aQ3, qsD) := rfl

/-- Payment of `aQ1p` completes at `dt = 30`: it turns LEAVING toward the
exit and the zone counter is decremented. -/
theorem tickQ4 : moveTowardsTarget avoid0 [aQ1p, aQ2] 30 rng0 aQ1p qsB = some (aQ1L, qsC) := by
  unfold moveTowardsTarget
  rw [if_neg (by decide : ¬(aQ1p.state = CustomerState.FINISHED)),
      if_neg (by decide : ¬(aQ1p.state = CustomerState.SHOPPING)),
      if_pos (by decide : aQ1p.state = CustomerState.PAYING)]
  dsimp only
  rw [if_pos (show aQ1p.serviceTime ≤ aQ1p.paymentTime + 30 by
    show (30 : ℝ) ≤ 0 + 30
    norm_num)]
  rfl

/-- Witness for the zone-partition invariant, at the one-agent state the
first C10 spawn reaches. -/
theorem reachable_zone_partition_witness :
    (aQ1.visitedZones ++ aQ1.unvisitedZones).Perm aQ1.allZones ∧
    (zCash ∈ aQ1.visitedZones → zCash ∉ aQ1.unvisitedZones) := by
  have h1 : SimReachable [zCash] ⟨[aQ1], qsA⟩ :=
    SimReachable.step SimReachable.init
      (SimStep.spawn initSim rng0 (pQ 1) aQ1 qsA
        (by simp [pQ]) (by simp [pQ, walkParams]) spawnQ1)
  have h := reachable_zone_partition [zCash] ⟨[aQ1], qsA⟩ h1 aQ1 (by simp)
  exact ⟨h.1, h.2 zCash⟩

/-- A non-positive distance means the two points coincide. -/
theorem distTo_le_zero_eq (p q : ℝ × ℝ) (h : distTo p q ≤ 0) : q = p := by
  have hs : Real.sqrt (dist2 p q) = 0 := le_antisymm h (Real.sqrt_nonneg _)
  have hnn : 0 ≤ dist2 p q := by
    unfold dist2
    positivity
  have h2 : dist2 p q = 0 := le_antisymm (Real.sqrt_eq_zero'.mp hs) hnn
  unfold dist2 at h2
  have h31 : (q.1 - p.1) ^ 2 = 0 := by nlinarith [sq_nonneg (q.1 - p.1), sq_nonneg (q.2 - p.2)]
  have h32 : (q.2 - p.2) ^ 2 = 0 := by nlinarith [sq_nonneg (q.1 - p.1), sq_nonneg (q.2 - p.2)]
  have e1 : q.1 = p.1 := by nlinarith [h31]
  have e2 : q.2 = p.2 := by nlinarith [h32]
  exact Prod.ext e1 e2

/-- C3 amended: a movement step with `delta_time = 0` leaves the position,
the shopping timer, and (for a PAYING agent not yet past its service time)
the payment timer unchanged — though not necessarily the state. -/
theorem move_zero_dt_preserves (avoidFn : Agent → List Agent → ℝ × ℝ) (others : List Agent)
    (rng : Rng) (a : Agent) (qs : QStore) (a' : Agent) (qs' : QStore)
    (hdraw : 0 ≤ rng.shoppingDraw)
    (hpay : a.state = CustomerState.PAYING → a.paymentTime < a.serviceTime)
    (h : moveTowardsTarget avoidFn others 0 rng a qs = some (a', qs')) :
    a'.position = a.position ∧ a'.shoppingTime = a.shoppingTime ∧
    a'.paymentTime = a.paymentTime := by
  unfold moveTowardsTarget at h
  by_cases hF : a.state = CustomerState.FINISHED
  · rw [if_pos hF] at h
    simp only [Option.some.injEq, Prod.mk.injEq] at h
    obtain ⟨h1, h2⟩ := h
    subst h1
    exact ⟨rfl, rfl, rfl⟩
  · rw [if_neg hF] at h
    by_cases hS : a.state = CustomerState.SHOPPING
    · rw [if_pos hS] at h
      dsimp only at h
      rw [if_neg (by
        rintro ⟨h1, h2⟩
        rw [zero_div] at h2
        exact absurd h2 (not_lt.mpr hdraw))] at h
      simp only [Option.some.injEq, Prod.mk.injEq] at h
      obtain ⟨h1, h2⟩ := h
      subst h1
      refine ⟨rfl, ?_, rfl⟩
      simp
    · by_cases hP : a.state = CustomerState.PAYING
      · rw [if_neg hS, if_pos hP] at h
        dsimp only at h
        rw [if_neg (by
          rw [add_zero]
          exact not_le.mpr (hpay hP))] at h
        simp only [Option.some.injEq, Prod.mk.injEq] at h
        obtain ⟨h1, h2⟩ := h
        subst h1
        refine ⟨rfl, rfl, ?_⟩
        simp
      · by_cases hQ : a.state = CustomerState.IN_QUEUE
        · rw [if_neg hS, if_neg hP, if_pos hQ] at h
          rcases hcz0 : a.currentCashZone with _ | cz
          · rw [hcz0] at h
            dsimp only at h
            simp only [Option.some.injEq, Prod.mk.injEq] at h
            obtain ⟨h1, h2⟩ := h
            subst h1
            exact ⟨rfl, rfl, rfl⟩
          · rw [hcz0] at h
            dsimp only at h
            split at h
            · simp only [Option.some.injEq, Prod.mk.injEq] at h
              obtain ⟨h1, h2⟩ := h
              subst h1
              exact ⟨rfl, rfl, rfl⟩
            · split at h
              · split at h
                · simp only [Option.some.injEq, Prod.mk.injEq] at h
                  obtain ⟨h1, h2⟩ := h
                  subst h1
                  refine ⟨?_, by simp, by simp⟩
                  simp [mul_zero]
                · simp only [Option.some.injEq, Prod.mk.injEq] at h
                  obtain ⟨h1, h2⟩ := h
                  subst h1
                  exact ⟨rfl, rfl, rfl⟩
              · simp only [Option.some.injEq, Prod.mk.injEq] at h
                obtain ⟨h1, h2⟩ := h
                subst h1
                exact ⟨rfl, rfl, rfl⟩
        · rw [if_neg hS, if_neg hP, if_neg hQ] at h
          rcases hd : a.destination with _ | d
          · rw [hd] at h
            dsimp only at h
            simp only [Option.some.injEq, Prod.mk.injEq] at h
            obtain ⟨h1, h2⟩ := h
            subst h1
            exact ⟨rfl, rfl, rfl⟩
          · rw [hd] at h
            dsimp only at h
            split at h
            · next hsnap =>
              have hdeq : d = a.position := by
                apply distTo_le_zero_eq
                unfold snapThreshold at hsnap
                rw [mul_zero] at hsnap
                exact hsnap
              subst hdeq
              split at h
              · split at h
                · split at h
                  · simp only [Option.some.injEq, Prod.mk.injEq] at h
                    obtain ⟨h1, h2⟩ := h
                    subst h1
                    exact ⟨rfl, rfl, rfl⟩
                  · obtain ⟨_, hpos, hsh, hpt, _⟩ := chooseNextTarget_fields _ _ _ _ _ h
                    exact ⟨hpos, hsh, hpt⟩
                · simp only [Option.some.injEq, Prod.mk.injEq] at h
                  obtain ⟨h1, h2⟩ := h
                  subst h1
                  exact ⟨rfl, rfl, rfl⟩
              · split at h
                · split at h
                  · simp only [Option.some.injEq, Prod.mk.injEq] at h
                    obtain ⟨h1, h2⟩ := h
                    subst h1
                    exact ⟨rfl, rfl, rfl⟩
                  · simp only [Option.some.injEq, Prod.mk.injEq] at h
                    obtain ⟨h1, h2⟩ := h
                    subst h1
                    exact ⟨rfl, rfl, rfl⟩
                · obtain ⟨_, hpos, hsh, hpt, _⟩ := chooseNextTarget_fields _ _ _ _ _ h
                  exact ⟨hpos, hsh, hpt⟩
            · simp only [Option.some.injEq, Prod.mk.injEq] at h
              obtain ⟨h1, h2⟩ := h
              subst h1
              refine ⟨?_, by simp, by simp⟩
              unfold tickTravel
              simp [mul_zero]

/-- Witness for the `delta_time = 0` preservation theorem at a concrete
queued agent. -/
theorem move_zero_dt_preserves_witness :
    ({queuedA with state := CustomerState.PAYING} : Agent).position = queuedA.position ∧
    ({queuedA with state := CustomerState.PAYING} : Agent).shoppingTime = queuedA.shoppingTime ∧
    ({queuedA with state := CustomerState.PAYING} : Agent).paymentTime = queuedA.paymentTime :=
  move_zero_dt_preserves avoid0 [queuedA] rng0 queuedA qsTwo _ qsTwo
    (by norm_num [rng0])
    (by
      intro hp
      simp [queuedA, baseAgent] at hp)
    (by
      simp [moveTowardsTarget, queueOf, queuedA, baseAgent, sameCashZone,
        List.insertionSort, zCash])

/-- C3, claim as stated is false: a movement step with `delta_time = 0` can
change the agent state — an IN_QUEUE agent at the head of its checkout
queue still transitions to PAYING. -/
theorem move_zero_dt_state_change_cex :
    queuedA.state = CustomerState.IN_QUEUE ∧
    moveTowardsTarget avoid0 [queuedA] 0 rng0 queuedA qsTwo =
      some ({queuedA with state := CustomerState.PAYING}, qsTwo) := by
  constructor
  · rfl
  · simp [moveTowardsTarget, queueOf, queuedA, baseAgent, sameCashZone,
      List.insertionSort, zCash]

/-- C2, claim as stated is false: in one full tick over the population, two
agents queued at the same checkout zone (slots 1 and 2, processed in
creation order) BOTH transition from IN_QUEUE to PAYING: the head pays and
leaves the IN_QUEUE set before the second agent is processed. -/
theorem tick_two_paying_cex :
    simTwoQueued.agents.map Agent.state = [CustomerState.IN_QUEUE, CustomerState.IN_QUEUE] ∧
    simTwoQueued.agents.map Agent.currentCashZone = [some zCash, some zCash] ∧
    (tickAll avoid0 1 (fun _ => rng0) simTwoQueued).map (fun st => st.agents.map Agent.state) =
      some [CustomerState.PAYING, CustomerState.PAYING] := by
  exact ⟨rfl, rfl, rfl⟩

/-- C2 amended: whenever an IN_QUEUE agent transitions to PAYING during its
own update, it holds a minimal claimed slot index among the agents then
IN_QUEUE for the same checkout zone; but several agents of one zone can so
transition within a single full tick (see the tick counterexample). -/
theorem inQueue_to_paying_min_slot (avoidFn : Agent → List Agent → ℝ × ℝ) (others : List Agent)
    (dt : ℝ) (rng : Rng) (a : Agent) (qs : QStore) (a' : Agent) (qs' : QStore)
    (hQ : a.state = CustomerState.IN_QUEUE)
    (hmv : moveTowardsTarget avoidFn others dt rng a qs = some (a', qs'))
    (hP : a'.state = CustomerState.PAYING)
    (hmem : a ∈ others)
    (hids : (others.map Agent.id).Nodup) :
    ∀ b ∈ others, b.state = CustomerState.IN_QUEUE →
      sameCashZone b.currentCashZone a.currentCashZone →
      qKey a ≤ qKey b := by
  unfold moveTowardsTarget at hmv
  rw [if_neg (by simp [hQ]), if_neg (by simp [hQ]), if_neg (by simp [hQ]), if_pos hQ] at hmv
  rcases hcz0 : a.currentCashZone with _ | cz
  · try rw [hcz0] at hmv
    dsimp only at hmv
    simp only [Option.some.injEq, Prod.mk.injEq] at hmv
    obtain ⟨h1, h2⟩ := hmv
    subst h1
    exact absurd (hQ.symm.trans hP) (by decide)
  · try rw [hcz0] at hmv
    dsimp only at hmv
    split at hmv
    · next hhead =>
      intro b hb hbQ hbz
      have hbmem : b ∈ queueOf others (some cz) := by
        unfold queueOf
        apply (List.Perm.mem_iff (List.perm_insertionSort _ _)).mpr
        rw [List.mem_filter]
        refine ⟨hb, ?_⟩
        rw [Bool.and_eq_true, decide_eq_true_eq, decide_eq_true_eq]
        exact ⟨hbz, hbQ⟩
      rcases hq : queueOf others (some cz) with _ | ⟨h0, t⟩
      · rw [hq] at hbmem
        cases hbmem
      · rw [hq] at hhead
        simp only [List.head?, Option.map_some', Option.some.injEq] at hhead
        have hh0mem : h0 ∈ others := by
          have hm : h0 ∈ queueOf others (some cz) := by
            rw [hq]
            simp
          unfold queueOf at hm
          have hm2 := (List.Perm.mem_iff (List.perm_insertionSort _ _)).mp hm
          exact (List.mem_filter.mp hm2).1
        have hh0a : h0 = a := List.inj_on_of_nodup_map hids hh0mem hmem hhead
        have hsorted : List.Sorted queueLe (queueOf others (some cz)) := by
          unfold queueOf
          exact List.sorted_insertionSort _ _
        rw [hq] at hsorted
        rw [hq] at hbmem
        rcases List.mem_cons.mp hbmem with rfl | hbt
        · rw [← hh0a]
        · have hle := (List.sorted_cons.mp hsorted).1 b hbt
          rw [← hh0a]
          exact hle
    · split at hmv
      · split at hmv
        · simp only [Option.some.injEq, Prod.mk.injEq] at hmv
          obtain ⟨h1, h2⟩ := hmv
          subst h1
          simp only [updateHeading_state] at hP
          exact absurd (hQ.symm.trans hP) (by decide)
        · simp only [Option.some.injEq, Prod.mk.injEq] at hmv
          obtain ⟨h1, h2⟩ := hmv
          subst h1
          exact absurd (hQ.symm.trans hP) (by decide)
      · simp only [Option.some.injEq, Prod.mk.injEq] at hmv
        obtain ⟨h1, h2⟩ := hmv
        subst h1
        exact absurd (hQ.symm.trans hP) (by decide)

/-- Witness for the head-minimality theorem at the two-agent queue,
instantiated at the waiting agent `queuedB`. -/
theorem inQueue_to_paying_min_slot_witness :
    queuedB.state = CustomerState.IN_QUEUE ∧
    sameCashZone queuedB.currentCashZone queuedA.currentCashZone ∧
    qKey queuedA ≤ qKey queuedB :=
  ⟨rfl, rfl,
    inQueue_to_paying_min_slot avoid0 [queuedA, queuedB] 1 rng0 queuedA qsTwo
      {queuedA with state := CustomerState.PAYING} qsTwo
      rfl rfl rfl (by simp) (by simp [queuedA, queuedB, baseAgent])
      queuedB (by simp) rfl rfl⟩

/-- C4, claim as stated is false: the snap threshold of the movement step
is `speed * delta_time` while the distance actually travelled per step is
`real_speed * scale * speed * delta_time`; with the source's base speed
1000 and scale 1 they differ by a factor 1000, so a destination within one
tick's travel distance (here 500) need not trigger the snap. -/
theorem snap_threshold_ne_travel_cex :
    snapThreshold walker 1 = 1 ∧ tickTravel walker 1 = 1000 ∧
    snapThreshold walker 1 ≠ tickTravel walker 1 ∧
    walker.destination = some (500, 0) ∧
    distTo walker.position (500, 0) = 500 ∧
    distTo walker.position (500, 0) ≤ tickTravel walker 1 ∧
    ¬ distTo walker.position (500, 0) ≤ snapThreshold walker 1 := by
  have hd : distTo walker.position (500, 0) = 500 := by
    have h2 : dist2 walker.position (500, 0) = 250000 := by
      norm_num [dist2, walker, mkAgent, walkParams]
    rw [distTo, h2, show (250000 : ℝ) = 500 ^ 2 by norm_num,
      Real.sqrt_sq (by norm_num : (0:ℝ) ≤ 500)]
  have hTF : ¬BehaviorType.TARGETED = BehaviorType.FAMILY := by decide
  refine ⟨?_, ?_, ?_, rfl, hd, ?_, ?_⟩
  · simp only [snapThreshold, walker, mkAgent, walkParams, if_neg hTF]
    norm_num
  · simp only [tickTravel, walker, mkAgent, walkParams, if_neg hTF]
    norm_num
  · simp only [snapThreshold, tickTravel, walker, mkAgent, walkParams, if_neg hTF]
    norm_num
  · rw [hd]
    simp only [tickTravel, walker, mkAgent, walkParams, if_neg hTF]
    norm_num
  · rw [hd]
    simp only [snapThreshold, walker, mkAgent, walkParams, if_neg hTF]
    norm_num

/-- C4 amended: a movement step of any agent outside the FINISHED,
SHOPPING, PAYING and IN_QUEUE states (i.e. WALKING or LEAVING) with a
destination snaps onto the destination exactly when the remaining distance
is within `speed * delta_time` (the snap threshold), and otherwise
advances along the updated heading by `real_speed * scale * speed *
delta_time` (the tick travel distance); the two quantities are distinct in
general. -/
theorem move_walking_snap_or_advance (avoidFn : Agent → List Agent → ℝ × ℝ)
    (others : List Agent) (dt : ℝ) (rng : Rng) (a : Agent) (qs : QStore)
    (a' : Agent) (qs' : QStore) (d : ℝ × ℝ)
    (hF : a.state ≠ CustomerState.FINISHED)
    (hS : a.state ≠ CustomerState.SHOPPING)
    (hP : a.state ≠ CustomerState.PAYING)
    (hQ : a.state ≠ CustomerState.IN_QUEUE)
    (hd : a.destination = some d)
    (hmv : moveTowardsTarget avoidFn others dt rng a qs = some (a', qs')) :
    (distTo a.position d ≤ snapThreshold a dt → a'.position = d) ∧
    (¬ distTo a.position d ≤ snapThreshold a dt →
      a'.position = ((updateHeading a d (avoidFn a others)).position.1
          + (updateHeading a d (avoidFn a others)).heading.1 * tickTravel a dt,
        (updateHeading a d (avoidFn a others)).position.2
          + (updateHeading a d (avoidFn a others)).heading.2 * tickTravel a dt)) := by
  unfold moveTowardsTarget at hmv
  rw [if_neg hF, if_neg hS, if_neg hP, if_neg hQ] at hmv
  rw [hd] at hmv
  dsimp only at hmv
  by_cases hsnap : distTo a.position d ≤ snapThreshold a dt
  · rw [if_pos hsnap] at hmv
    refine ⟨fun _ => ?_, fun hns => absurd hsnap hns⟩
    repeat' split at hmv
    all_goals
      first
      | (obtain ⟨_, hpos, _⟩ := chooseNextTarget_fields _ _ _ _ _ hmv
         exact hpos)
      | (simp only [Option.some.injEq, Prod.mk.injEq] at hmv
         obtain ⟨h1, h2⟩ := hmv
         subst h1
         rfl)
  · rw [if_neg hsnap] at hmv
    refine ⟨fun hs => absurd hs hsnap, fun _ => ?_⟩
    simp only [Option.some.injEq, Prod.mk.injEq] at hmv
    obtain ⟨h1, h2⟩ := hmv
    subst h1
    rfl

/-- Witness for the snap-or-advance theorem: an agent standing on its
destination snaps onto it. -/
theorem move_walking_snap_or_advance_witness :
    (distTo walker0.position ((0:ℝ), (0:ℝ)) ≤ snapThreshold walker0 1) ∧
    ({walker0 with position := ((0:ℝ), (0:ℝ)), state := CustomerState.SHOPPING} : Agent).position
      = ((0:ℝ), (0:ℝ)) := by
  have hdist : distTo walker0.position ((0:ℝ), (0:ℝ)) = 0 := by
    have h2 : dist2 walker0.position ((0:ℝ), (0:ℝ)) = 0 := by
      norm_num [dist2, walker0, mkAgent, walkParams]
    rw [distTo, h2, Real.sqrt_zero]
  have hsnap : distTo walker0.position ((0:ℝ), (0:ℝ)) ≤ snapThreshold walker0 1 := by
    rw [hdist]
    simp only [snapThreshold, walker0, mkAgent, walkParams,
      if_neg (show ¬BehaviorType.TARGETED = BehaviorType.FAMILY by decide)]
    norm_num
  have hmv : moveTowardsTarget avoid0 [] 1 rng0 walker0 qs0 =
      some ({walker0 with position := ((0:ℝ), (0:ℝ)), state := CustomerState.SHOPPING}, qs0) := by
    unfold moveTowardsTarget
    rw [if_neg (by simp [walker0, mkAgent, walkParams]),
      if_neg (by simp [walker0, mkAgent, walkParams]),
      if_neg (by simp [walker0, mkAgent, walkParams]),
      if_neg (by simp [walker0, mkAgent, walkParams])]
    have hdest : walker0.destination = some ((0:ℝ), (0:ℝ)) := rfl
    rw [hdest]
    dsimp only
    rw [if_pos hsnap,
      if_pos (show walker0.state = CustomerState.WALKING from rfl),
      if_neg (show ¬walker0.cashZones = [] by simp [walker0])]
    simp [walker0, mkAgent, walkParams]
  exact ⟨hsnap,
    (move_walking_snap_or_advance avoid0 [] 1 rng0 walker0 qs0 _ qs0 ((0:ℝ), (0:ℝ))
      (by decide) (by decide) (by decide) (by decide) rfl hmv).1 hsnap⟩

/-- C6, claim as stated is false: on the very first selection the
right-hand bias is applied before the budget filter, so a LOW-budget agent
whose only right-hand zone has attractiveness 0.8 selects that zone even
though an unvisited 1.5 zone exists. -/
theorem budget_low_first_move_cex :
    lowAgent.budget = BudgetLevel.LOW ∧
    lowAgent.firstMove = true ∧
    lowAgent.unvisitedZones.map Zone.attractiveness = [0.8, 1.5, 1.1] ∧
    (chooseNextTarget rng0 lowAgent qs0).map
        (fun r => r.1.visitedZones.map Zone.attractiveness) = some [0.8] := by
  have hrz : zonesToRight lowAgent lowAgent.unvisitedZones = [zRight] := by
    show zonesToRight lowAgent [zRight, zPromo, zMid] = [zRight]
    unfold zonesToRight
    rw [List.filter_cons, List.filter_cons, List.filter_cons, List.filter_nil]
    norm_num [lowAgent, baseAgent, zRight, zPromo, zMid]
  have hbf : budgetFilter lowAgent.budget [zRight] = [zRight] := by
    show budgetFilter BudgetLevel.LOW [zRight] = [zRight]
    unfold budgetFilter
    dsimp only
    rw [List.filter_cons, List.filter_nil]
    norm_num [zRight]
  have hwc : weightedChoice lowAgent rng0 [zRight] = some zRight := by
    unfold weightedChoice
    dsimp only
    rw [if_neg]
    · rw [show rouletteRun rng0.roulette ([zRight].zip
          ([zRight].mapIdx fun i z => max (rawWeight lowAgent z (rng0.draws i)) 0))
          = some zRight from ?_]
      norm_num [rouletteRun, rawWeight, lowAgent, baseAgent, zRight, rng0]
    · norm_num [rawWeight, lowAgent, baseAgent, zRight, rng0]
  refine ⟨rfl, rfl, by norm_num [lowAgent, baseAgent, zRight, zPromo, zMid], ?_⟩
  unfold chooseNextTarget
  rw [if_neg (by simp [lowAgent, baseAgent])]
  dsimp only
  rw [if_neg (by simp [lowAgent, baseAgent])]
  dsimp only
  rw [if_pos (by simp [lowAgent, baseAgent]), if_pos (show lowAgent.firstMove = true from rfl),
    hrz, if_pos (by simp), hbf, hwc]
  dsimp only
  norm_num [lowAgent, baseAgent, zRight]

/-- C6 amended: away from the very first selection (where the right-hand
bias may exclude it), a LOW-budget agent whose unvisited zones have
attractiveness {0.8, 1.5, 1.1} always selects the 1.5 zone: the budget
filter reduces the candidates to exactly that zone. -/
theorem budget_low_selects_promoted (rng : Rng) (a : Agent) (qs : QStore)
    (z1 z2 z3 : Zone) (a' : Agent) (qs' : QStore)
    (hb : a.budget = BudgetLevel.LOW) (hf : a.firstMove = false)
    (hs : a.state ≠ CustomerState.LEAVING)
    (hu : a.unvisitedZones = [z1, z2, z3])
    (h1 : z1.attractiveness = 0.8) (h2 : z2.attractiveness = 1.5)
    (h3 : z3.attractiveness = 1.1)
    (h : chooseNextTarget rng a qs = some (a', qs')) :
    a'.visitedZones = a.visitedZones ++ [z2] ∧ a'.destination = some z2.center := by
  have hbf : budgetFilter a.budget a.unvisitedZones = [z2] := by
    rw [hb, hu]
    unfold budgetFilter
    dsimp only
    rw [List.filter_cons, List.filter_cons, List.filter_cons, List.filter_nil]
    norm_num [h1, h2, h3]
  unfold chooseNextTarget at h
  rw [if_neg hs] at h
  dsimp only at h
  rw [if_neg (by
    rw [hu]
    rintro ⟨hc, _⟩
    cases hc)] at h
  dsimp only at h
  rw [if_pos (by rw [hu]; simp), if_neg (by rw [hf]; simp), hbf] at h
  split at h
  · exact Option.noConfusion h
  · next z hw =>
    have hz : z ∈ [z2] := weightedChoice_mem _ _ _ _ hw
    rw [List.mem_singleton] at hz
    subst hz
    simp only [Option.some.injEq, Prod.mk.injEq] at h
    obtain ⟨ha, hqs⟩ := h
    rw [← ha]
    exact ⟨rfl, rfl⟩

/-- Witness for the LOW-budget selection theorem at a concrete non-first
selection. -/
theorem budget_low_selects_promoted_witness :
    lowAgent2.budget = BudgetLevel.LOW ∧
    zRight.attractiveness = 0.8 ∧ zPromo.attractiveness = 1.5 ∧ zMid.attractiveness = 1.1 ∧
    ({lowAgent2 with
        destination := some zPromo.center
        visitedZones := [zPromo]
        unvisitedZones := eraseZone [zRight, zPromo, zMid] zPromo.id
        state := CustomerState.WALKING} : Agent).visitedZones
      = lowAgent2.visitedZones ++ [zPromo] ∧
    ({lowAgent2 with
        destination := some zPromo.center
        visitedZones := [zPromo]
        unvisitedZones := eraseZone [zRight, zPromo, zMid] zPromo.id
        state := CustomerState.WALKING} : Agent).destination = some zPromo.center := by
  have hbf : budgetFilter lowAgent2.budget lowAgent2.unvisitedZones = [zPromo] := by
    show budgetFilter BudgetLevel.LOW [zRight, zPromo, zMid] = [zPromo]
    unfold budgetFilter
    dsimp only
    rw [List.filter_cons, List.filter_cons, List.filter_cons, List.filter_nil]
    norm_num [zRight, zPromo, zMid]
  have hwc : weightedChoice lowAgent2 rng0 [zPromo] = some zPromo := by
    unfold weightedChoice
    dsimp only
    rw [if_neg]
    · rw [show rouletteRun rng0.roulette ([zPromo].zip
          ([zPromo].mapIdx fun i z => max (rawWeight lowAgent2 z (rng0.draws i)) 0))
          = some zPromo from ?_]
      norm_num [rouletteRun, rawWeight, lowAgent2, lowAgent, baseAgent, zPromo, rng0]
    · norm_num [rawWeight, lowAgent2, lowAgent, baseAgent, zPromo, rng0]
  have hmv : chooseNextTarget rng0 lowAgent2 qs0 =
      some ({lowAgent2 with
        destination := some zPromo.center
        visitedZones := [zPromo]
        unvisitedZones := eraseZone [zRight, zPromo, zMid] zPromo.id
        state := CustomerState.WALKING}, qs0) := by
    unfold chooseNextTarget
    rw [if_neg (by simp [lowAgent2, lowAgent, baseAgent])]
    dsimp only
    rw [if_neg (by simp [lowAgent2, lowAgent, baseAgent])]
    dsimp only
    rw [if_pos (by simp [lowAgent2, lowAgent, baseAgent]),
      if_neg (show ¬lowAgent2.firstMove = true by simp [lowAgent2]),
      hbf, hwc]
    simp [lowAgent2, lowAgent, baseAgent]
  obtain ⟨hv, hdst⟩ := budget_low_selects_promoted rng0 lowAgent2 qs0 zRight zPromo zMid _ qs0
    rfl rfl (by simp [lowAgent2, lowAgent, baseAgent]) rfl
    (by norm_num [zRight]) (by norm_num [zPromo]) (by norm_num [zMid]) hmv
  exact ⟨rfl, by norm_num [zRight], by norm_num [zPromo], by norm_num [zMid], hv, hdst⟩

/-- C8 amended: each follower update moves the follower straight toward its
predecessor by exactly `min (group speed, remaining distance)` — the GROUP
object's speed attribute, with no `delta_time` factor and no use of the
follower's own (FAMILY-reduced) speed — never overshooting, and snaps onto
a coincident predecessor. -/
theorem follower_step_advance (gspeed : ℝ) (prev cur : ℝ × ℝ) (hg : 0 ≤ gspeed) :
    (distTo cur prev = 0 → followerStep gspeed prev cur = prev) ∧
    (0 < distTo cur prev →
      distTo cur (followerStep gspeed prev cur) = min gspeed (distTo cur prev) ∧
      distTo (followerStep gspeed prev cur) prev
        = distTo cur prev - min gspeed (distTo cur prev)) := by
  constructor
  · intro h0
    unfold followerStep
    rw [h0]
    simp
  · intro hpos
    have hnn : 0 ≤ dist2 cur prev := by
      unfold dist2
      positivity
    have hd2 : distTo cur prev ^ 2 = dist2 cur prev := Real.sq_sqrt hnn
    have hdne : distTo cur prev ≠ 0 := ne_of_gt hpos
    have hs0 : 0 ≤ min gspeed (distTo cur prev) := le_min hg (le_of_lt hpos)
    have hsd : min gspeed (distTo cur prev) ≤ distTo cur prev := min_le_right _ _
    unfold followerStep
    rw [if_pos hpos]
    dsimp only
    set d := distTo cur prev with hdd
    constructor
    · have hk : dist2 cur (cur.1 + (prev.1 - cur.1) / d * min gspeed d,
          cur.2 + (prev.2 - cur.2) / d * min gspeed d) = (min gspeed d) ^ 2 := by
        unfold dist2 at hd2 ⊢
        dsimp only
        field_simp
        nlinarith [hd2]
      show distTo cur (cur.1 + (prev.1 - cur.1) / d * min gspeed d,
          cur.2 + (prev.2 - cur.2) / d * min gspeed d) = min gspeed d
      unfold distTo
      rw [hk]
      exact Real.sqrt_sq hs0
    · have hk : dist2 (cur.1 + (prev.1 - cur.1) / d * min gspeed d,
          cur.2 + (prev.2 - cur.2) / d * min gspeed d) prev = (d - min gspeed d) ^ 2 := by
        unfold dist2 at hd2 ⊢
        dsimp only
        field_simp
        nlinarith [hd2]
      show distTo (cur.1 + (prev.1 - cur.1) / d * min gspeed d,
          cur.2 + (prev.2 - cur.2) / d * min gspeed d) prev = d - min gspeed d
      unfold distTo
      rw [hk]
      exact Real.sqrt_sq (by linarith)

/-- Concrete distance: from the origin to (3,4) is 5. -/
theorem dist_00_34 : distTo ((0:ℝ), 0) ((3:ℝ), 4) = 5 := by
  unfold distTo dist2
  rw [show ((3:ℝ) - 0) ^ 2 + ((4:ℝ) - 0) ^ 2 = 5 ^ 2 by norm_num]
  exact Real.sqrt_sq (by norm_num)

/-- Concrete follower step: group speed 1, predecessor at (3,4), follower at
the origin; the follower advances a full unit to (3/5, 4/5). -/
theorem famFollowerStep :
    followerStep famGroup.speed famLeader.position famFollower.position
      = ((3:ℝ)/5, 4/5) := by
  have h1 : famGroup.speed = 1 := rfl
  have h2 : famLeader.position = ((3:ℝ), 4) := rfl
  have h3 : famFollower.position = ((0:ℝ), 0) := rfl
  rw [h1, h2, h3]
  unfold followerStep
  dsimp only
  rw [dist_00_34]
  rw [if_pos (by norm_num : (0:ℝ) < 5)]
  rw [show min (1:ℝ) 5 = 1 from min_eq_left (by norm_num)]
  norm_num

/-- C8 counterexample: in a two-member FAMILY group with group speed 1, the
follower (own `speed` attribute 0.7 after the FAMILY slowdown, standing 5
units behind the leader) is moved a full unit in a single group update —
strictly more than its own speed, and far more than its own speed times the
0.033 tick: `AgentGroup.update` steps followers by the group's `speed`
attribute with no `delta_time` factor, not by the member's own speed. -/
theorem follower_group_speed_cex :
    famFollower.speed = 0.7 ∧ famGroup.speed = 1 ∧
    (groupUpdate avoid0 rng0 famGroup qs0).map
        (fun r => r.1.members.map Agent.position)
      = some [((3:ℝ), 4), ((3:ℝ)/5, 4/5)] ∧
    distTo famFollower.position ((3:ℝ)/5, 4/5) = 1 ∧
    famFollower.speed < 1 ∧ famFollower.speed * 0.033 < 1 := by
  have hs : famFollower.speed = 0.7 := by
    show (if BehaviorType.FAMILY = BehaviorType.FAMILY then (1:ℝ) * 0.7 else 1) = 0.7
    norm_num
  refine ⟨hs, rfl, ?_, ?_, ?_, ?_⟩
  · have hgu : groupUpdate avoid0 rng0 famGroup qs0
        = some ({famGroup with members :=
            [famLeader, {famFollower with position := ((3:ℝ)/5, 4/5)}]}, qs0) := by
      show (match moveTowardsTarget avoid0 famGroup.members 0.033 rng0 famLeader qs0 with
        | none => none
        | some (leader', qs') =>
          some ({famGroup with
            members := leader' :: updateFollowers famGroup.speed leader'.position [famFollower]},
            qs')) = _
      rw [show moveTowardsTarget avoid0 famGroup.members 0.033 rng0 famLeader qs0
            = some (famLeader, qs0) from rfl]
      dsimp only [updateFollowers]
      rw [famFollowerStep]
    rw [hgu]
    rfl
  · have h3 : famFollower.position = ((0:ℝ), 0) := rfl
    rw [h3]
    unfold distTo dist2
    rw [show ((3:ℝ)/5 - 0) ^ 2 + ((4:ℝ)/5 - 0) ^ 2 = 1 ^ 2 by norm_num]
    exact Real.sqrt_sq (by norm_num)
  · rw [hs]; norm_num
  · rw [hs]; norm_num

/-- C8 witness: the amended per-step law applied at group speed 1,
predecessor (3,4), follower at the origin. -/
theorem follower_step_advance_witness :
    distTo ((0:ℝ), 0) (followerStep 1 ((3:ℝ), 4) ((0:ℝ), 0))
        = min 1 (distTo ((0:ℝ), 0) ((3:ℝ), 4)) ∧
    distTo (followerStep 1 ((3:ℝ), 4) ((0:ℝ), 0)) ((3:ℝ), 4)
        = distTo ((0:ℝ), 0) ((3:ℝ), 4) - min 1 (distTo ((0:ℝ), 0) ((3:ℝ), 4)) := by
  have h := (follower_step_advance 1 ((3:ℝ), 4) ((0:ℝ), 0) (by norm_num)).2
  exact h (by rw [dist_00_34]; norm_num)

/-- `buildMembers` creates exactly one agent per role, and every member
keeps the behavior its construction parameters prescribe. -/
theorem buildMembers_spec (rngs : ℕ → Rng) (pars : ℕ → AgentParams) :
    ∀ (roles : List ℕ) (qs : QStore) (l : List Agent) (qs' : QStore),
      buildMembers rngs pars roles qs = some (l, qs') →
      l.length = roles.length ∧ ∀ a ∈ l, ∃ r ∈ roles, a.behavior = (pars r).behavior := by
  intro roles
  induction roles with
  | nil =>
    intro qs l qs' h
    unfold buildMembers at h
    simp only [Option.some.injEq, Prod.mk.injEq] at h
    obtain ⟨h1, _⟩ := h
    subst h1
    simp
  | cons r rs ih =>
    intro qs l qs' h
    unfold buildMembers at h
    split at h
    · exact absurd h (by simp)
    next a qs1 heq =>
      split at h
      · exact absurd h (by simp)
      next l0 qs2 heq2 =>
        simp only [Option.some.injEq, Prod.mk.injEq] at h
        obtain ⟨h1, _⟩ := h
        subst h1
        obtain ⟨hlen, hbeh⟩ := ih qs1 l0 qs2 heq2
        have ha : a.behavior = (pars r).behavior := by
          have hf := chooseNextTarget_fields (rngs r) (mkAgent (pars r)) qs a qs1 heq
          exact hf.2.2.2.2.2.2.1
        constructor
        · simp [hlen]
        · intro b hb
          rcases List.mem_cons.1 hb with hb | hb
          · subst hb
            exact ⟨r, List.mem_cons_self r rs, ha⟩
          · obtain ⟨r', hr', hbr⟩ := hbeh b hb
            exact ⟨r', List.mem_cons_of_mem r hr', hbr⟩

/-- `mkGroup` yields a group of the requested type with `groupSize` members,
all carrying the behavior drawn once for the whole group. -/
theorem mkGroup_spec (gt : GroupType) (start : ℝ × ℝ) (sz cz : List Zone)
    (ep : List (ℝ × ℝ)) (scale gspeed : ℝ) (o : GroupOracle) (qs : QStore)
    (g : AgentGroupM) (qs' : QStore)
    (h : mkGroup gt start sz cz ep scale gspeed o qs = some (g, qs')) :
    g.groupType = gt ∧ g.members.length = groupSize gt ∧
    ∀ a ∈ g.members, a.behavior = groupBehavior gt o.behaviorIdx := by
  unfold mkGroup at h
  dsimp only at h
  split at h
  · exact absurd h (by simp)
  next l qs1 heq =>
    simp only [Option.some.injEq, Prod.mk.injEq] at h
    obtain ⟨h1, _⟩ := h
    subst h1
    obtain ⟨hlen, hbeh⟩ := buildMembers_spec _ _ _ _ _ _ heq
    refine ⟨rfl, ?_, ?_⟩
    · simpa using hlen
    · intro a ha
      obtain ⟨r, _, hbr⟩ := hbeh a ha
      exact hbr

/-- The inner creation loop produces exactly `n` groups of the given type,
each with `groupSize` members sharing a single drawn behavior. -/
theorem mkGroupsN_spec (gt : GroupType) (entr : List (ℝ × ℝ)) (sz cz : List Zone)
    (ep : List (ℝ × ℝ)) (scale gspeed : ℝ) (oracle : ℕ → GroupOracle) :
    ∀ (n k : ℕ) (qs : QStore) (gs : List AgentGroupM) (k' : ℕ) (qs' : QStore),
      mkGroupsN gt entr sz cz ep scale gspeed oracle n k qs = some (gs, k', qs') →
      gs.length = n ∧ ∀ g ∈ gs, g.groupType = gt ∧ g.members.length = groupSize gt ∧
        ∃ idx, ∀ a ∈ g.members, a.behavior = groupBehavior gt idx := by
  intro n
  induction n with
  | zero =>
    intro k qs gs k' qs' h
    unfold mkGroupsN at h
    simp only [Option.some.injEq, Prod.mk.injEq] at h
    obtain ⟨h1, _⟩ := h
    subst h1
    simp
  | succ m ih =>
    intro k qs gs k' qs' h
    unfold mkGroupsN at h
    split at h
    · exact absurd h (by simp)
    next start hstart =>
      split at h
      · exact absurd h (by simp)
      next g0 qs1 heq =>
        split at h
        · exact absurd h (by simp)
        next gs0 k1 qs2 heq2 =>
          simp only [Option.some.injEq, Prod.mk.injEq] at h
          obtain ⟨h1, _⟩ := h
          subst h1
          obtain ⟨hlen, hall⟩ := ih (k + 1) qs1 gs0 k1 qs2 heq2
          obtain ⟨ht, hml, hbeh⟩ := mkGroup_spec _ _ _ _ _ _ _ _ _ _ _ heq
          constructor
          · simp [hlen]
          · intro g hg
            rcases List.mem_cons.1 hg with hg | hg
            · subst hg
              exact ⟨ht, hml, (oracle k).behaviorIdx, hbeh⟩
            · exact hall g hg

/-- The distribution loop: every created group has `groupSize` members of a
single drawn behavior, and (for nonnegative shares) the member count it
consumes is at most `total` times the sum of the shares. -/
theorem genLoop_spec (total : ℕ) (entr : List (ℝ × ℝ)) (sz cz : List Zone)
    (ep : List (ℝ × ℝ)) (scale gspeed : ℝ) (oracle : ℕ → GroupOracle) :
    ∀ (dist : List (GroupType × ℚ)) (k : ℕ) (qs : QStore) (gs : List AgentGroupM)
      (k' : ℕ) (qs' : QStore),
      genLoop total entr sz cz ep scale gspeed oracle dist k qs = some (gs, k', qs') →
      (∀ g ∈ gs, g.members.length = groupSize g.groupType ∧
        ∃ idx, ∀ a ∈ g.members, a.behavior = groupBehavior g.groupType idx) ∧
      ((∀ tp ∈ dist, 0 ≤ tp.2) →
        (((gs.map fun g => groupSize g.groupType).sum : ℕ) : ℚ)
          ≤ (total : ℚ) * (dist.map Prod.snd).sum) := by
  intro dist
  induction dist with
  | nil =>
    intro k qs gs k' qs' h
    unfold genLoop at h
    simp only [Option.some.injEq, Prod.mk.injEq] at h
    obtain ⟨h1, _⟩ := h
    subst h1
    simp
  | cons tp rest ih =>
    obtain ⟨t, p⟩ := tp
    intro k qs gs k' qs' h
    unfold genLoop at h
    dsimp only at h
    split at h
    · exact absurd h (by simp)
    next gsn k1 qs1 heq =>
      split at h
      · exact absurd h (by simp)
      next gs2 k2 qs2 heq2 =>
        simp only [Option.some.injEq, Prod.mk.injEq] at h
        obtain ⟨h1, _⟩ := h
        subst h1
        obtain ⟨hlen, hall⟩ := mkGroupsN_spec _ _ _ _ _ _ _ _ _ _ _ _ _ _ heq
        obtain ⟨ihall, ihsum⟩ := ih k1 qs1 gs2 k2 qs2 heq2
        constructor
        · intro g hg
          rcases List.mem_append.1 hg with hg | hg
          · obtain ⟨ht, hml, hb⟩ := hall g hg
            rw [ht]
            exact ⟨hml, hb⟩
          · exact ihall g hg
        · intro hnn
          have hp : (0 : ℚ) ≤ p := hnn (t, p) (List.mem_cons_self _ _)
          have hrest : ∀ tp ∈ rest, (0 : ℚ) ≤ tp.2 := fun tp htp =>
            hnn tp (List.mem_cons_of_mem _ htp)
          have hs1 : 1 ≤ groupSize t := by cases t <;> simp [groupSize]
          have hs : (0 : ℚ) < (groupSize t : ℚ) := by exact_mod_cast hs1
          have hmap : gsn.map (fun g => groupSize g.groupType)
              = List.replicate gsn.length (groupSize t) := by
            refine List.eq_replicate.2 ⟨by simp, ?_⟩
            intro b hb
            obtain ⟨g, hg, hgb⟩ := List.mem_map.1 hb
            rw [← hgb, (hall g hg).1]
          have hq0 : (0 : ℚ) ≤ (total : ℚ) * p / (groupSize t : ℚ) :=
            div_nonneg (mul_nonneg (Nat.cast_nonneg _) hp) hs.le
          have hcount : (((Int.floor ((total : ℚ) * p / (groupSize t : ℚ))).toNat : ℚ))
              ≤ (total : ℚ) * p / (groupSize t : ℚ) := by
            have h1 : ((Int.floor ((total : ℚ) * p / (groupSize t : ℚ))).toNat : ℤ)
                = Int.floor ((total : ℚ) * p / (groupSize t : ℚ)) :=
              Int.toNat_of_nonneg (Int.floor_nonneg.2 hq0)
            have h2 : (((Int.floor ((total : ℚ) * p / (groupSize t : ℚ))).toNat : ℤ) : ℚ)
                ≤ (total : ℚ) * p / (groupSize t : ℚ) := by
              rw [h1]
              exact Int.floor_le _
            exact_mod_cast h2
          have hused : ((gsn.map fun g => groupSize g.groupType).sum : ℚ)
              ≤ (total : ℚ) * p := by
            rw [hmap, List.sum_replicate, smul_eq_mul, hlen]
            push_cast
            calc ((Int.floor ((total : ℚ) * p / (groupSize t : ℚ))).toNat : ℚ)
                  * (groupSize t : ℚ)
                ≤ ((total : ℚ) * p / (groupSize t : ℚ)) * (groupSize t : ℚ) :=
                  mul_le_mul_of_nonneg_right hcount hs.le
              _ = (total : ℚ) * p := div_mul_cancel₀ _ hs.ne'
          have hrest2 := ihsum hrest
          rw [List.map_append, List.sum_append, List.map_cons, List.sum_cons]
          push_cast
          push_cast at hused hrest2
          nlinarith [hused, hrest2]

/-- A single agent's drawn behavior always lies in the four non-FAMILY
strategies. -/
theorem groupBehavior_individual_mem (idx : ℕ) :
    groupBehavior GroupType.INDIVIDUAL idx
      ∈ [BehaviorType.IMPULSIVE, BehaviorType.TARGETED,
         BehaviorType.EXPLORER, BehaviorType.BUDGET] := by
  have h : idx % 4 = 0 ∨ idx % 4 = 1 ∨ idx % 4 = 2 ∨ idx % 4 = 3 := by omega
  rcases h with h | h | h | h <;> simp [groupBehavior, h]

/-- Multi-member-capable group types get the forced FAMILY behavior. -/
theorem groupBehavior_not_individual (gt : GroupType) (idx : ℕ)
    (h : gt ≠ GroupType.INDIVIDUAL) :
    groupBehavior gt idx = BehaviorType.FAMILY := by
  unfold groupBehavior
  rw [if_neg h]

/-- C9: for every target count and every distribution with nonnegative
shares summing to at most 1, `generate_agent_groups` returns groups whose
member counts add up to exactly the target: the per-type loop consumes at
most the target (each type contributes `groupSize * floor(total*share/groupSize)`
members), and the padding loop adds exactly the shortfall in single-agent
INDIVIDUAL groups.  Multi-member group types carry FAMILY behavior on every
member; INDIVIDUAL groups draw from the four non-FAMILY strategies. -/
theorem generate_agent_groups_total (total : ℕ) (dist : List (GroupType × ℚ))
    (entr : List (ℝ × ℝ)) (sz cz : List Zone) (ep : List (ℝ × ℝ))
    (scale gspeed : ℝ) (oracle : ℕ → GroupOracle) (qs : QStore)
    (gs : List AgentGroupM) (qs' : QStore)
    (hnn : ∀ tp ∈ dist, (0 : ℚ) ≤ tp.2)
    (hsum : (dist.map Prod.snd).sum ≤ 1)
    (h : generateAgentGroups total dist entr sz cz ep scale gspeed oracle qs
      = some (gs, qs')) :
    (gs.map fun g => g.members.length).sum = total ∧
    ∀ g ∈ gs,
      (g.groupType ≠ GroupType.INDIVIDUAL →
        ∀ a ∈ g.members, a.behavior = BehaviorType.FAMILY) ∧
      (g.groupType = GroupType.INDIVIDUAL →
        ∀ a ∈ g.members,
          a.behavior ∈ [BehaviorType.IMPULSIVE, BehaviorType.TARGETED,
            BehaviorType.EXPLORER, BehaviorType.BUDGET]) := by
  unfold generateAgentGroups at h
  split at h
  · exact absurd h (by simp)
  next gs0 k qs1 heq =>
    dsimp only at h
    split at h
    · exact absurd h (by simp)
    next pads k2 qs2 heq2 =>
      simp only [Option.some.injEq, Prod.mk.injEq] at h
      obtain ⟨h1, _⟩ := h
      subst h1
      obtain ⟨hall0, hsum0⟩ := genLoop_spec _ _ _ _ _ _ _ _ _ _ _ _ _ _ heq
      obtain ⟨hplen, hpall⟩ := mkGroupsN_spec _ _ _ _ _ _ _ _ _ _ _ _ _ _ heq2
      have hused : ((gs0.map fun g => groupSize g.groupType).sum : ℚ) ≤ (total : ℚ) := by
        calc ((gs0.map fun g => groupSize g.groupType).sum : ℚ)
            ≤ (total : ℚ) * (dist.map Prod.snd).sum := hsum0 hnn
          _ ≤ (total : ℚ) * 1 := mul_le_mul_of_nonneg_left hsum (Nat.cast_nonneg _)
          _ = (total : ℚ) := mul_one _
      have husedN : (gs0.map fun g => groupSize g.groupType).sum ≤ total := by
        exact_mod_cast hused
      constructor
      · have hm0 : (gs0.map fun g => g.members.length).sum
            = (gs0.map fun g => groupSize g.groupType).sum := by
          congr 1
          exact List.map_congr_left fun g hg => (hall0 g hg).1
        have hmp : (pads.map fun g => g.members.length).sum = pads.length := by
          have : pads.map (fun g => g.members.length) = List.replicate pads.length 1 := by
            refine List.eq_replicate.2 ⟨by simp, ?_⟩
            intro b hb
            obtain ⟨g, hg, hgb⟩ := List.mem_map.1 hb
            obtain ⟨ht, hml, _⟩ := hpall g hg
            rw [← hgb, hml]
            rfl
          rw [this, List.sum_replicate, smul_eq_mul, mul_one]
        rw [List.map_append, List.sum_append, hm0, hmp, hplen]
        omega
      · intro g hg
        rcases List.mem_append.1 hg with hg | hg
        · obtain ⟨_, idx, hb⟩ := hall0 g hg
          constructor
          · intro hne a ha
            rw [hb a ha]
            exact groupBehavior_not_individual _ _ hne
          · intro hei a ha
            rw [hb a ha, hei]
            exact groupBehavior_individual_mem idx
        · obtain ⟨ht, _, idx, hb⟩ := hpall g hg
          constructor
          · intro hne
            exact absurd ht hne
          · intro _ a ha
            rw [hb a ha]
            exact groupBehavior_individual_mem idx

/-- C9 witness: one agent, empty distribution; the padding loop creates the
single INDIVIDUAL group and the member total is exactly 1. -/
theorem generate_agent_groups_total_witness :
    (∀ tp ∈ ([] : List (GroupType × ℚ)), (0 : ℚ) ≤ tp.2) ∧
    (([] : List (GroupType × ℚ)).map Prod.snd).sum ≤ 1 ∧
    ∃ gs qs',
      generateAgentGroups 1 [] [((0:ℝ), 0)] [] [] [((0:ℝ), 0)] 1 1 oracleW qs0
        = some (gs, qs') ∧
      (gs.map fun g => g.members.length).sum = 1 := by
  refine ⟨by simp, by simp, ?_⟩
  have hs : (generateAgentGroups 1 [] [((0:ℝ), 0)] [] [] [((0:ℝ), 0)] 1 1 oracleW qs0).isSome
      = true := rfl
  rcases ho : generateAgentGroups 1 [] [((0:ℝ), 0)] [] [] [((0:ℝ), 0)] 1 1 oracleW qs0
    with _ | ⟨gs, qs'⟩
  · rw [ho] at hs
    exact absurd hs (by simp)
  · exact ⟨gs, qs', rfl, (generate_agent_groups_total 1 [] _ _ _ _ _ _ _ _ gs qs'
      (by simp) (by simp) ho).1⟩

/-- C10: `join_queue` returns the post-increment value of the zone's
`queue_length` counter, not a globally fresh slot number; and a state is
reachable (spawn, spawn, head promotion, payment completion, spawn) in
which two distinct agents simultaneously IN_QUEUE at the same checkout
hold the same claimed slot index. -/
theorem duplicate_queue_positions_reachable :
    (∀ qs z, canJoinQueue qs z → (joinQueue qs z).1 = qs z.id + 1) ∧
    ∃ st : Sim, SimReachable [zCash] st ∧
      ∃ b ∈ st.agents, ∃ c ∈ st.agents, b.id ≠ c.id ∧
        b.state = CustomerState.IN_QUEUE ∧ c.state = CustomerState.IN_QUEUE ∧
        sameCashZone b.currentCashZone c.currentCashZone ∧
        b.queuePosition = c.queuePosition ∧ b.queuePosition ≠ none := by
  constructor
  · intro qs z h
    unfold joinQueue
    rw [if_pos h]
  · have h1 : SimReachable [zCash] ⟨[aQ1], qsA⟩ :=
      SimReachable.step SimReachable.init
        (SimStep.spawn initSim rng0 (pQ 1) aQ1 qsA
          (by simp [pQ]) (by simp [pQ, walkParams]) spawnQ1)
    have h2 : SimReachable [zCash] ⟨[aQ1, aQ2], qsB⟩ :=
      SimReachable.step h1
        (SimStep.spawn ⟨[aQ1], qsA⟩ rng0 (pQ 2) aQ2 qsB
          (by simp [pQ]) (by simp [pQ, walkParams]) spawnQ2)
    have h3 : SimReachable [zCash] ⟨[aQ1p, aQ2], qsB⟩ :=
      SimReachable.step h2
        (SimStep.tick ⟨[aQ1, aQ2], qsB⟩ 0 avoid0 0 rng0 aQ1 aQ1p qsB rfl tickQ3)
    have h4 : SimReachable [zCash] ⟨[aQ1L, aQ2], qsC⟩ :=
      SimReachable.step h3
        (SimStep.tick ⟨[aQ1p, aQ2], qsB⟩ 0 avoid0 30 rng0 aQ1p aQ1L qsC rfl tickQ4)
    have h5 : SimReachable [zCash] ⟨[aQ1L, aQ2, aQ3], qsD⟩ :=
      SimReachable.step h4
        (SimStep.spawn ⟨[aQ1L, aQ2], qsC⟩ rng0 (pQ 3) aQ3 qsD
          (by simp [pQ]) (by simp [pQ, walkParams]) spawnQ3)
    refine ⟨⟨[aQ1L, aQ2, aQ3], qsD⟩, h5, aQ2, by simp, aQ3, by simp, ?_, rfl, rfl, ?_, rfl, ?_⟩
    · exact (by decide : aQ2.id ≠ aQ3.id)
    · exact (rfl : zCash.id = zCash.id)
    · exact fun h => Option.noConfusion h

/-- C10 witness: the increment law of `join_queue` at the empty store and
the default checkout. -/
theorem duplicate_queue_positions_reachable_witness :
    canJoinQueue qs0 zCash ∧ (joinQueue qs0 zCash).1 = qs0 zCash.id + 1 :=
  ⟨by decide, duplicate_queue_positions_reachable.1 qs0 zCash (by decide)⟩
